import Mathlib

set_option maxHeartbeats 1000000

/-!
Verification of the dataset-merge engine (src/merge_datasets.py) of the
books-curator repository.

The development shallowly embeds the text normalizer, the difflib-based
similarity scorer, the fuzzy matcher, and the canonical-record merge
pipeline of class DatasetMerger, and proves (or refutes) the specified
properties about them.  Python strings are modeled as List Char (the
repository data is ASCII-range), Python floats as exact rationals, and
the insertion-ordered dict merged_books as an association list.
-/

namespace BooksCurator

/-! ## Python character and string primitives -/

/-- Python str.lower on one character (ASCII case mapping). -/
def pyLower (c : Char) : Char :=
  if 65 ≤ c.toNat ∧ c.toNat ≤ 90 then Char.ofNat (c.toNat + 32) else c

/-- Python str.isspace on one character (ASCII whitespace). -/
def pyIsSpace (c : Char) : Bool :=
  decide (c.toNat = 32 ∨ c.toNat = 9 ∨ c.toNat = 10 ∨ c.toNat = 11 ∨
          c.toNat = 12 ∨ c.toNat = 13)

/-- Python str.isalnum on one character (ASCII letters and digits). -/
def pyIsAlnum (c : Char) : Bool :=
  decide ((48 ≤ c.toNat ∧ c.toNat ≤ 57) ∨ (65 ≤ c.toNat ∧ c.toNat ≤ 90) ∨
          (97 ≤ c.toNat ∧ c.toNat ≤ 122))

/-- Python str.strip(): drop whitespace from both ends. -/
def pyStrip (l : List Char) : List Char :=
  ((l.dropWhile pyIsSpace).reverse.dropWhile pyIsSpace).reverse

/-- Accumulator-based splitter behind pyWords; cur holds the current word
reversed. -/
def wordsAux : List Char → List Char → List (List Char)
  | [], cur => if cur.isEmpty then [] else [cur.reverse]
  | c :: rest, cur =>
    if pyIsSpace c then
      if cur.isEmpty then wordsAux rest [] else cur.reverse :: wordsAux rest []
    else wordsAux rest (c :: cur)

/-- Python str.split() with no argument: split on whitespace runs, dropping
empty pieces. -/
def pyWords (l : List Char) : List (List Char) := wordsAux l []

/-- Python ' '.join(words). -/
def joinWords : List (List Char) → List Char
  | [] => []
  | [w] => w
  | w :: x :: ws => w ++ ' ' :: joinWords (x :: ws)

/-- One iteration of the article loop in DatasetMerger.normalize_text:
strip art from the front of t when it is a prefix. -/
def stripArticle (art t : List Char) : List Char :=
  if art.isPrefixOf t then t.drop art.length else t

/-- DatasetMerger.normalize_text: lowercase, strip outer whitespace, strip
each of the articles the-space, a-space, an-space in turn when currently a
prefix, drop every character that is not alphanumeric or whitespace, and
collapse whitespace runs via split/join. -/
def normalize_text (text : List Char) : List Char :=
  if text.isEmpty then []
  else
    let t1 := pyStrip (text.map pyLower)
    let t2 := stripArticle "an ".toList (stripArticle "a ".toList
                (stripArticle "the ".toList t1))
    let t3 := t2.filter (fun c => pyIsAlnum c || pyIsSpace c)
    joinWords (pyWords t3)

/-- The author join used by the catalog merge phases:
a comma-space join of the authors list, empty for an empty list. -/
def joinAuthors (authors : List (List Char)) : List Char :=
  List.intercalate ", ".toList authors

/-! ## difflib.SequenceMatcher (as called with isjunk=None)

calculate_similarity delegates to SequenceMatcher(None, s1, s2).ratio().
The embedding follows CPython difflib: the b2j index over non-popular
characters (the autojunk heuristic fires only when b has at least 200
elements), the j2len dynamic program of find_longest_match with its
earliest-in-a then earliest-in-b tie break, the equal-element extension
loops (with isjunk=None the junk set is empty, so the junk-extension
loops never execute and the non-junk extension loops reduce to plain
equality tests), and the recursive block collection of
get_matching_blocks, of which only the total matched size M feeds ratio.
Python float division is modeled as exact rational division. -/

/-- Character of l at index i (accesses are within bounds at every use). -/
def chAt (l : List Char) (i : Nat) : Char := l.getD i (Char.ofNat 0)

/-- The autojunk popularity test of SequenceMatcher.__chain_b: only for b of
length at least 200, characters occurring more than length/100 + 1 times are
dropped from b2j. -/
def isPopular (b : List Char) (c : Char) : Bool :=
  decide (200 ≤ b.length ∧ b.length / 100 + 1 < b.count c)

/-- b2j: the ascending list of positions of a non-popular character in b. -/
def b2jIdx (b : List Char) (c : Char) : List Nat :=
  if isPopular b c then []
  else (List.range b.length).filter (fun j => chAt b j == c)

/-- The j values scanned by the inner loop at one row: difflib skips j < blo
with continue and stops at the first j at or beyond bhi with break (the list
is ascending, so break is a takeWhile). -/
def rowJs (b : List Char) (c : Char) (blo bhi : Nat) : List Nat :=
  ((b2jIdx b c).takeWhile (fun j => decide (j < bhi))).filter
    (fun j => decide (blo ≤ j))

/-- The running best block of find_longest_match: start in a, start in b,
size. -/
structure DpBest where
  besti : Nat
  bestj : Nat
  bestsize : Nat
deriving DecidableEq

/-- One inner-loop iteration of find_longest_match at row i: j2len is the
previous row's chain-length map (a total function that is 0 away from the
keys difflib stores; Python's j2len.get(j-1, 0) yields 0 at j = 0 because -1
is never a key).  The accumulator carries the new row map and the best. -/
def dpRowStep (j2len : Nat → Nat) (i : Nat) (acc : (Nat → Nat) × DpBest)
    (j : Nat) : (Nat → Nat) × DpBest :=
  let k := (if j = 0 then 0 else j2len (j - 1)) + 1
  let m := acc.2
  (fun j' => if j' = j then k else acc.1 j',
   if m.bestsize < k then ⟨i + 1 - k, j + 1 - k, k⟩ else m)

/-- One full row of the find_longest_match dynamic program: fold the inner
loop over the scanned j values, starting from a fresh all-zero row map. -/
def dpRow (a b : List Char) (blo bhi : Nat) (st : (Nat → Nat) × DpBest)
    (i : Nat) : (Nat → Nat) × DpBest :=
  (rowJs b (chAt a i) blo bhi).foldl (dpRowStep st.1 i) (fun _ => 0, st.2)

/-- The row loop of find_longest_match over i in [alo, ahi), starting from
best = (alo, blo, 0) and an empty j2len. -/
def dpLoop (a b : List Char) (alo ahi blo bhi : Nat) : DpBest :=
  ((List.range' alo (ahi - alo)).foldl (dpRow a b blo bhi)
    (fun _ => 0, ⟨alo, blo, 0⟩)).2

/-- The leftward extension loop of find_longest_match (with isjunk=None the
not-junk test is vacuous): extend while the elements before the block are
equal.  Fuel-indexed; any fuel at least besti - alo is exact. -/
def extLeft (a b : List Char) (alo blo : Nat) : Nat → DpBest → DpBest
  | 0, m => m
  | fuel + 1, m =>
    if alo < m.besti ∧ blo < m.bestj ∧
        chAt a (m.besti - 1) = chAt b (m.bestj - 1) then
      extLeft a b alo blo fuel ⟨m.besti - 1, m.bestj - 1, m.bestsize + 1⟩
    else m

/-- The rightward extension loop of find_longest_match. -/
def extRight (a b : List Char) (ahi bhi : Nat) : Nat → DpBest → DpBest
  | 0, m => m
  | fuel + 1, m =>
    if m.besti + m.bestsize < ahi ∧ m.bestj + m.bestsize < bhi ∧
        chAt a (m.besti + m.bestsize) = chAt b (m.bestj + m.bestsize) then
      extRight a b ahi bhi fuel ⟨m.besti, m.bestj, m.bestsize + 1⟩
    else m

/-- SequenceMatcher.find_longest_match on the region [alo,ahi) x [blo,bhi). -/
def findLongestMatch (a b : List Char) (alo ahi blo bhi : Nat) : DpBest :=
  extRight a b ahi bhi (ahi + bhi + 1)
    (extLeft a b alo blo (ahi + bhi + 1) (dpLoop a b alo ahi blo bhi))

/-- Total matched size over a region of get_matching_blocks: the block found
by find_longest_match plus the totals of the two residual regions (the queue
traversal, the final sort and the merging of adjacent blocks in difflib
preserve this sum).  Fuel-indexed; the a-extent of a region shrinks strictly
at each level, so fuel a.length + 1 is exact at the top call. -/
def mbSum (a b : List Char) : Nat → Nat → Nat → Nat → Nat → Nat
  | 0, _, _, _, _ => 0
  | fuel + 1, alo, ahi, blo, bhi =>
    let m := findLongestMatch a b alo ahi blo bhi
    if m.bestsize = 0 then 0
    else
      m.bestsize + mbSum a b fuel alo m.besti blo m.bestj
        + mbSum a b fuel (m.besti + m.bestsize) ahi (m.bestj + m.bestsize) bhi

/-- The matched total M of SequenceMatcher.get_matching_blocks. -/
def matchTotal (a b : List Char) : Nat :=
  mbSum a b (a.length + 1) 0 a.length 0 b.length

/-- SequenceMatcher.ratio: 2M/T with exact rational division in place of the
Python float division. -/
def smRatio (a b : List Char) : ℚ :=
  2 * (matchTotal a b : ℚ) / ((a.length : ℚ) + (b.length : ℚ))

/-- DatasetMerger.calculate_similarity. -/
def calculate_similarity (s1 s2 : List Char) : ℚ :=
  if s1.isEmpty ∨ s2.isEmpty then 0 else smRatio s1 s2

/-- DatasetMerger.fuzzy_match at the default threshold 0.85: normalize all
four inputs and require both the title similarity and the author similarity
to reach the threshold. -/
def fuzzy_match (title1 author1 title2 author2 : List Char) : Bool :=
  let ts := calculate_similarity (normalize_text title1) (normalize_text title2)
  let as' := calculate_similarity (normalize_text author1) (normalize_text author2)
  decide ((85 : ℚ)/100 ≤ ts) && decide ((85 : ℚ)/100 ≤ as')

/-! ## Source records and the canonical book record

One structure per input source, with the fields the merge code reads via
dict.get; a default mirrors each get default (absent string fields default
to the empty string or None exactly as in the code).  Python falsiness of
optional values is captured by the xFalsy helpers: an absent value, an
empty string and the integer 0 are all falsy.  JSON numbers are modeled as
Int (counts, years, ranks) and exact rationals (ratings averages). -/

structure AwardEntry where
  Title : List Char := []
  Author : List Char := []
  Year : Option Int := none
  Award : List Char := []
  Status : List Char := []
  Publisher : Option (List Char) := none
deriving DecidableEq

structure GoogleBook where
  title : List Char := []
  authors : List (List Char) := []
  isbn_13 : Option (List Char) := none
  isbn_10 : Option (List Char) := none
  publisher : Option (List Char) := none
  page_count : Option Int := none
  language : Option (List Char) := none
  categories : List (List Char) := []
  year : Option Int := none
  google_books_id : Option (List Char) := none
deriving DecidableEq

structure OLBook where
  title : List Char := []
  authors : List (List Char) := []
  isbn : List (List Char) := []
  ratings_average : Option ℚ := none
  ratings_count : Option Int := none
  want_to_read_count : Option Int := none
  currently_reading_count : Option Int := none
  already_read_count : Option Int := none
  year : Option Int := none
  openlibrary_key : Option (List Char) := none
deriving DecidableEq

structure NytBook where
  title : List Char := []
  author : List Char := []
  primary_isbn13 : Option (List Char) := none
  primary_isbn10 : Option (List Char) := none
  rank : Option Int := none
  weeks_on_list : Option Int := none
  bestseller_date : Option (List Char) := none
deriving DecidableEq

/-- One entry appended to a canonical record's awards list. -/
structure AwardInfo where
  award : List Char
  year : Option Int
  status : List Char
  publisher : Option (List Char)
deriving DecidableEq

/-- The canonical book record of create_base_book_entry.  The identifiers
dict is flattened into one optional slot per key the code ever writes. -/
structure Book where
  title : List Char
  author : List Char
  year : Option Int
  isbn_all : List (List Char)
  isbn_13 : Option (List Char)
  isbn_10 : Option (List Char)
  identifiers_google_books_id : Option (Option (List Char))
  identifiers_openlibrary_key : Option (Option (List Char))
  awards : List AwardInfo
  award_count : Nat
  won_award : Bool
  shortlisted : Bool
  ratings_average : Option ℚ
  ratings_count : Int
  want_to_read_count : Int
  currently_reading_count : Int
  already_read_count : Int
  bestseller_appearances : Nat
  total_weeks_on_bestseller : Int
  highest_rank : Option Int
  bestseller_dates : List (List Char)
  publisher : Option (List Char)
  page_count : Option Int
  categories : List (List Char)
  description : Option (List Char)
  language : Option (List Char)
  sources : List (List Char)
deriving DecidableEq

/-- Python falsiness of an optional string (None or the empty string). -/
def strFalsy (o : Option (List Char)) : Bool :=
  match o with
  | none => true
  | some s => s.isEmpty

/-- Python falsiness of an optional integer (None or 0). -/
def intFalsy (o : Option Int) : Bool :=
  match o with
  | none => true
  | some n => n == 0

/-- DatasetMerger.create_base_book_entry. -/
def create_base_book_entry (title author : List Char) (year : Option Int) :
    Book where
  title := title
  author := author
  year := year
  isbn_all := []
  isbn_13 := none
  isbn_10 := none
  identifiers_google_books_id := none
  identifiers_openlibrary_key := none
  awards := []
  award_count := 0
  won_award := false
  shortlisted := false
  ratings_average := none
  ratings_count := 0
  want_to_read_count := 0
  currently_reading_count := 0
  already_read_count := 0
  bestseller_appearances := 0
  total_weeks_on_bestseller := 0
  highest_rank := none
  bestseller_dates := []
  publisher := none
  page_count := none
  categories := []
  description := none
  language := none
  sources := []

instance : Inhabited Book := ⟨create_base_book_entry [] [] none⟩

/-- DatasetMerger.generate_book_id: normalized title and author joined with
an underscore, spaces replaced by underscores, truncated to 100 chars. -/
def generate_book_id (title author : List Char) : List Char :=
  ((normalize_text title ++ '_' :: normalize_text author).map
    (fun c => if c = ' ' then '_' else c)).take 100

/-- DatasetMerger.add_isbn_to_book: no-op for a falsy or sentinel or already
present identifier, else append and designate primaries by string length
first-wins. -/
def add_isbn_to_book (b : Book) (isbn : Option (List Char)) : Book :=
  match isbn with
  | none => b
  | some s =>
    if s.isEmpty || s == "N/A".toList || decide (s ∈ b.isbn_all) then b
    else
      let b := { b with isbn_all := b.isbn_all ++ [s] }
      if s.length = 13 ∧ strFalsy b.isbn_13 then { b with isbn_13 := some s }
      else if s.length = 10 ∧ strFalsy b.isbn_10 then { b with isbn_10 := some s }
      else b

/-! ## The merged_books dict and the identity resolvers

merged_books is a Python dict keyed by generated id: an insertion-ordered
association list.  Assigning to an existing key replaces the value in
place; assigning a new key appends.  The find functions return the first
entry in iteration order; they are stated on the (key, book) pair, which
is the same data the code reads back via self.merged_books[book_id]. -/

def dictSet : List (List Char × Book) → List Char → Book →
    List (List Char × Book)
  | [], k, v => [(k, v)]
  | (k', v') :: rest, k, v =>
    if k' = k then (k', v) :: rest else (k', v') :: dictSet rest k v

def dictFind (d : List (List Char × Book)) (k : List Char) : Option Book :=
  (d.find? (fun p => p.1 == k)).map (·.2)

/-- DatasetMerger.find_book_by_isbn, returning the matched pair: None for a
falsy or sentinel identifier, else the first canonical entry whose isbn_all
contains it. -/
def findIsbnPair (books : List (List Char × Book)) (isbn : List Char) :
    Option (List Char × Book) :=
  if isbn.isEmpty || isbn == "N/A".toList then none
  else books.find? (fun p => decide (isbn ∈ p.2.isbn_all))

def find_book_by_isbn (books : List (List Char × Book)) (isbn : List Char) :
    Option (List Char) :=
  (findIsbnPair books isbn).map (·.1)

/-- DatasetMerger.find_book_by_fuzzy_match, returning the matched pair: the
first canonical entry whose stored title and author fuzzy-match. -/
def findFuzzyPair (books : List (List Char × Book)) (title author : List Char) :
    Option (List Char × Book) :=
  books.find? (fun p => fuzzy_match title author p.2.title p.2.author)

def find_book_by_fuzzy_match (books : List (List Char × Book))
    (title author : List Char) : Option (List Char) :=
  (findFuzzyPair books title author).map (·.1)

/-- The type of the fuzzy fallback used during resolution; the pipeline
instantiates it with findFuzzyPair. -/
def FuzzyFinder : Type :=
  List (List Char × Book) → List Char → List Char → Option (List Char × Book)

/-- Python falsiness of a resolution result (book_id is None or empty). -/
def keyFalsy (o : Option (List Char × Book)) : Bool :=
  match o with
  | none => true
  | some p => p.1.isEmpty

/-! ## Per-source data application

Each applyX function is the block of field mutations a merge phase performs
on the canonical record a source record resolved to (or on the freshly
created base record), exactly in source order. -/

/-- The award-information block of merge_awards_data (lines 214-231). -/
def applyAwardData (b : Book) (e : AwardEntry) : Book :=
  let b := { b with
    awards := b.awards ++ [⟨e.Award, e.Year, e.Status, e.Publisher⟩],
    award_count := b.award_count + 1 }
  let b := if e.Status == "Winner".toList then { b with won_award := true } else b
  let b := if e.Status == "Shortlist".toList || e.Status == "Finalist".toList then
      { b with shortlisted := true }
    else b
  if decide ("awards".toList ∈ b.sources) then b
  else { b with sources := b.sources ++ ["awards".toList] }

/-- The Google Books block of merge_google_books_data (lines 283-305). -/
def googlePublisherUpdate (b : Book) (e : GoogleBook) : Book :=
  if strFalsy b.publisher then { b with publisher := e.publisher } else b

def googlePageUpdate (b : Book) (e : GoogleBook) : Book :=
  if intFalsy b.page_count then { b with page_count := e.page_count } else b

def googleLanguageUpdate (b : Book) (e : GoogleBook) : Book :=
  if strFalsy b.language then { b with language := e.language } else b

def googleDescriptionUpdate (b : Book) : Book :=
  if strFalsy b.description then { b with description := none } else b

def googleCategoriesUpdate (b : Book) (e : GoogleBook) : Book :=
  { b with categories :=
      (e.categories.foldl
        (fun cats c => if decide (c ∈ cats) then cats else cats ++ [c])
        b.categories) }

def googleIdUpdate (b : Book) (e : GoogleBook) : Book :=
  { b with identifiers_google_books_id := some e.google_books_id }

def googleSourceUpdate (b : Book) : Book :=
  if decide ("google_books".toList ∈ b.sources) then b
  else { b with sources := b.sources ++ ["google_books".toList] }

def applyGoogleData (b : Book) (e : GoogleBook) : Book :=
  let b := add_isbn_to_book b e.isbn_13
  let b := add_isbn_to_book b e.isbn_10
  googleSourceUpdate (googleIdUpdate (googleCategoriesUpdate
    (googleDescriptionUpdate (googleLanguageUpdate (googlePageUpdate
      (googlePublisherUpdate b e) e) e)) e) e)

/-- The Open Library block of merge_openlibrary_data (lines 356-370): add
every identifier, then overwrite all five reception fields unconditionally
with the incoming values. -/
def applyOpenlibraryData (b : Book) (e : OLBook) : Book :=
  let b := e.isbn.foldl (fun b i => add_isbn_to_book b (some i)) b
  let b := { b with
    ratings_average := e.ratings_average,
    ratings_count := e.ratings_count.getD 0,
    want_to_read_count := e.want_to_read_count.getD 0,
    currently_reading_count := e.currently_reading_count.getD 0,
    already_read_count := e.already_read_count.getD 0,
    identifiers_openlibrary_key := some e.openlibrary_key }
  if decide ("openlibrary".toList ∈ b.sources) then b
  else { b with sources := b.sources ++ ["openlibrary".toList] }

/-- The NYT block of merge_nyt_bestsellers_data (lines 420-439). -/
def nytRankUpdate (b : Book) (rank : Option Int) : Book :=
  match rank with
  | none => b
  | some r =>
    if r = 0 then b
    else match b.highest_rank with
      | none => { b with highest_rank := some r }
      | some h => if r < h then { b with highest_rank := some r } else b

def nytDateUpdate (b : Book) (date : Option (List Char)) : Book :=
  match date with
  | none => b
  | some d =>
    if d.isEmpty || decide (d ∈ b.bestseller_dates) then b
    else { b with bestseller_dates := b.bestseller_dates ++ [d] }

def nytSourceUpdate (b : Book) : Book :=
  if decide ("nyt_bestsellers".toList ∈ b.sources) then b
  else { b with sources := b.sources ++ ["nyt_bestsellers".toList] }

def applyNytData (b : Book) (e : NytBook) : Book :=
  let b := add_isbn_to_book b e.primary_isbn13
  let b := add_isbn_to_book b e.primary_isbn10
  let b := { b with
    bestseller_appearances := b.bestseller_appearances + 1,
    total_weeks_on_bestseller :=
      b.total_weeks_on_bestseller + e.weeks_on_list.getD 0 }
  nytSourceUpdate (nytDateUpdate (nytRankUpdate b e.rank) e.bestseller_date)

/-! ## The merge engine state and the per-record steps -/

structure MergeState where
  merged_books : List (List Char × Book) := []
  unmatched_awards : List AwardEntry := []
  unmatched_google : List GoogleBook := []
  unmatched_openlibrary : List OLBook := []
  unmatched_nyt : List NytBook := []
  awards_matched : Nat := 0
  google_matched : Nat := 0
  google_unmatched : Nat := 0
  ol_matched : Nat := 0
  ol_unmatched : Nat := 0
  nyt_matched : Nat := 0
  nyt_unmatched : Nat := 0
deriving DecidableEq

def initState : MergeState := {}

/-- One award record of the loop body of merge_awards_data (lines 198-232):
a record without title or author is skipped outright (it is not added to
any unmatched list); otherwise resolve by fuzzy match only, create a base
record under the generated id on failure, and apply the award data.  The
matched counter advances for every processed record. -/
def awardStep (st : MergeState) (e : AwardEntry) : MergeState :=
  if e.Title.isEmpty || e.Author.isEmpty then st
  else
    let r := findFuzzyPair st.merged_books e.Title e.Author
    let st := { st with awards_matched := st.awards_matched + 1 }
    match r with
    | some (k, b) =>
      if k.isEmpty then
        let k' := generate_book_id e.Title e.Author
        { st with merged_books :=
            (dictSet st.merged_books k'
              (applyAwardData (create_base_book_entry e.Title e.Author e.Year) e)) }
      else
        { st with merged_books := dictSet st.merged_books k (applyAwardData b e) }
    | none =>
      let k' := generate_book_id e.Title e.Author
      { st with merged_books :=
          (dictSet st.merged_books k'
            (applyAwardData (create_base_book_entry e.Title e.Author e.Year) e)) }

/-- The identifier part of the resolution in merge_google_books_data
(lines 256-264): ISBN-13 first, ISBN-10 only when the result so far is
falsy. -/
def googleIsbnResolve (books : List (List Char × Book)) (e : GoogleBook) :
    Option (List Char × Book) :=
  let r := if !strFalsy e.isbn_13 then findIsbnPair books (e.isbn_13.getD []) else none
  if keyFalsy r ∧ !strFalsy e.isbn_10 then findIsbnPair books (e.isbn_10.getD [])
  else r

/-- The full resolution of merge_google_books_data, with the fuzzy fallback
(consulted only when identifier resolution failed and the joined author is
nonempty) abstracted as a parameter; the pipeline passes findFuzzyPair. -/
def googleResolveWith (fm : FuzzyFinder) (books : List (List Char × Book))
    (e : GoogleBook) : Option (List Char × Book) :=
  let r := googleIsbnResolve books e
  if keyFalsy r ∧ !(joinAuthors e.authors).isEmpty then fm books e.title (joinAuthors e.authors)
  else r

/-- One Google Books record of the loop body of merge_google_books_data
(lines 247-305): a titleless record goes to the unmatched list untouched;
otherwise resolve, create a base record on failure (also recording the
source record as unmatched), and apply the Google data. -/
def googleStep (st : MergeState) (e : GoogleBook) : MergeState :=
  if e.title.isEmpty then
    { st with unmatched_google := st.unmatched_google ++ [e] }
  else
    let r := googleResolveWith findFuzzyPair st.merged_books e
    match r with
    | some (k, b) =>
      if k.isEmpty then
        let k' := generate_book_id e.title (joinAuthors e.authors)
        { st with
          merged_books := dictSet st.merged_books k'
            (applyGoogleData (create_base_book_entry e.title (joinAuthors e.authors) e.year) e),
          unmatched_google := st.unmatched_google ++ [e],
          google_unmatched := st.google_unmatched + 1 }
      else
        { st with merged_books := dictSet st.merged_books k (applyGoogleData b e),
                  google_matched := st.google_matched + 1 }
    | none =>
      let k' := generate_book_id e.title (joinAuthors e.authors)
      { st with
        merged_books := dictSet st.merged_books k'
          (applyGoogleData (create_base_book_entry e.title (joinAuthors e.authors) e.year) e),
        unmatched_google := st.unmatched_google ++ [e],
        google_unmatched := st.google_unmatched + 1 }

/-- The identifier part of the resolution in merge_openlibrary_data (lines
331-337): try every listed identifier in order, stopping at the first
truthy result; each failed try overwrites book_id as in the Python loop. -/
def olIsbnResolve (books : List (List Char × Book)) (isbns : List (List Char)) :
    Option (List Char × Book) :=
  isbns.foldl (fun acc i => if keyFalsy acc then findIsbnPair books i else acc) none

/-- The full resolution of merge_openlibrary_data with the fuzzy fallback
abstracted. -/
def olResolveWith (fm : FuzzyFinder) (books : List (List Char × Book))
    (e : OLBook) : Option (List Char × Book) :=
  let r := olIsbnResolve books e.isbn
  if keyFalsy r ∧ !(joinAuthors e.authors).isEmpty then fm books e.title (joinAuthors e.authors)
  else r

/-- One Open Library record of the loop body of merge_openlibrary_data
(lines 321-370). -/
def olStep (st : MergeState) (e : OLBook) : MergeState :=
  if e.title.isEmpty then
    { st with unmatched_openlibrary := st.unmatched_openlibrary ++ [e] }
  else
    let r := olResolveWith findFuzzyPair st.merged_books e
    match r with
    | some (k, b) =>
      if k.isEmpty then
        let k' := generate_book_id e.title (joinAuthors e.authors)
        { st with
          merged_books := dictSet st.merged_books k'
            (applyOpenlibraryData (create_base_book_entry e.title (joinAuthors e.authors) e.year) e),
          unmatched_openlibrary := st.unmatched_openlibrary ++ [e],
          ol_unmatched := st.ol_unmatched + 1 }
      else
        { st with merged_books := dictSet st.merged_books k (applyOpenlibraryData b e),
                  ol_matched := st.ol_matched + 1 }
    | none =>
      let k' := generate_book_id e.title (joinAuthors e.authors)
      { st with
        merged_books := dictSet st.merged_books k'
          (applyOpenlibraryData (create_base_book_entry e.title (joinAuthors e.authors) e.year) e),
        unmatched_openlibrary := st.unmatched_openlibrary ++ [e],
        ol_unmatched := st.ol_unmatched + 1 }

/-- The identifier part of the resolution in merge_nyt_bestsellers_data
(lines 394-402), with the explicit sentinel checks of that phase. -/
def nytIsbnResolve (books : List (List Char × Book)) (e : NytBook) :
    Option (List Char × Book) :=
  let ok13 := !strFalsy e.primary_isbn13 && !(e.primary_isbn13.getD [] == "N/A".toList)
  let ok10 := !strFalsy e.primary_isbn10 && !(e.primary_isbn10.getD [] == "N/A".toList)
  let r := if ok13 then findIsbnPair books (e.primary_isbn13.getD []) else none
  if keyFalsy r ∧ ok10 then findIsbnPair books (e.primary_isbn10.getD [])
  else r

/-- The full resolution of merge_nyt_bestsellers_data with the fuzzy
fallback abstracted. -/
def nytResolveWith (fm : FuzzyFinder) (books : List (List Char × Book))
    (e : NytBook) : Option (List Char × Book) :=
  let r := nytIsbnResolve books e
  if keyFalsy r ∧ !e.author.isEmpty then fm books e.title e.author
  else r

/-- One NYT record of the loop body of merge_nyt_bestsellers_data (lines
386-439); the created base record carries year None. -/
def nytStep (st : MergeState) (e : NytBook) : MergeState :=
  if e.title.isEmpty then
    { st with unmatched_nyt := st.unmatched_nyt ++ [e] }
  else
    let r := nytResolveWith findFuzzyPair st.merged_books e
    match r with
    | some (k, b) =>
      if k.isEmpty then
        let k' := generate_book_id e.title e.author
        { st with
          merged_books := dictSet st.merged_books k'
            (applyNytData (create_base_book_entry e.title e.author none) e),
          unmatched_nyt := st.unmatched_nyt ++ [e],
          nyt_unmatched := st.nyt_unmatched + 1 }
      else
        { st with merged_books := dictSet st.merged_books k (applyNytData b e),
                  nyt_matched := st.nyt_matched + 1 }
    | none =>
      let k' := generate_book_id e.title e.author
      { st with
        merged_books := dictSet st.merged_books k'
          (applyNytData (create_base_book_entry e.title e.author none) e),
        unmatched_nyt := st.unmatched_nyt ++ [e],
        nyt_unmatched := st.nyt_unmatched + 1 }

/-! ## The merge phases and the pipeline -/

/-- merge_awards_data: filter the concatenated award entries to years
2020-2025 and fold the per-record step. -/
def merge_awards_data (entries : List AwardEntry) (st : MergeState) : MergeState :=
  (entries.filter (fun e => decide (2020 ≤ e.Year.getD 0 ∧ e.Year.getD 0 ≤ 2025))).foldl
    awardStep st

def merge_google_books_data (entries : List GoogleBook) (st : MergeState) :
    MergeState :=
  entries.foldl googleStep st

def merge_openlibrary_data (entries : List OLBook) (st : MergeState) :
    MergeState :=
  entries.foldl olStep st

def merge_nyt_bestsellers_data (entries : List NytBook) (st : MergeState) :
    MergeState :=
  entries.foldl nytStep st

/-- DatasetMerger.run: the four merge phases in their fixed order. -/
def runMerge (aw : List AwardEntry) (g : List GoogleBook) (ol : List OLBook)
    (ny : List NytBook) : MergeState :=
  merge_nyt_bestsellers_data ny
    (merge_openlibrary_data ol
      (merge_google_books_data g
        (merge_awards_data aw initState)))

/-! ## Statement and proof support definitions -/

/-- Does a string start with one of the three articles the normalizer
strips?  Used to state exactly when normalize_text fails to be
idempotent. -/
def startsWithArticle (t : List Char) : Bool :=
  "the ".toList.isPrefixOf t || "a ".toList.isPrefixOf t ||
    "an ".toList.isPrefixOf t

/-- Validity of a cell of the find_longest_match dynamic program: the row
character matches a non-popular b character inside the scanned window.
This is exactly membership of j in the scanned list of row i. -/
def chainValid (a b : List Char) (alo blo bhi i j : Nat) : Bool :=
  decide (alo ≤ i ∧ blo ≤ j ∧ j < bhi ∧ j < b.length ∧
    chAt a i = chAt b j ∧ isPopular b (chAt b j) = false)

/-- The value difflib's j2len dict holds at (row i, column j): the length
of the run of matched in-window cells ending at (i, j).  Rows before alo
contribute nothing, matching the empty initial j2len. -/
def chainLen (a b : List Char) (alo blo bhi : Nat) : Nat → Nat → Nat
  | 0, j => if chainValid a b alo blo bhi 0 j then 1 else 0
  | i + 1, j =>
    if chainValid a b alo blo bhi (i + 1) j then
      (if j = 0 then 0 else chainLen a b alo blo bhi i (j - 1)) + 1
    else 0

/-- The block found so far lies inside the scanned region. -/
def dpInRegion (alo ahi blo bhi : Nat) (m : DpBest) : Prop :=
  alo ≤ m.besti ∧ m.besti + m.bestsize ≤ ahi ∧
    blo ≤ m.bestj ∧ m.bestj + m.bestsize ≤ bhi

/-! ## Basic dictionary lemmas -/

theorem dictFind_dictSet_self (d : List (List Char × Book)) (k : List Char)
    (v : Book) : dictFind (dictSet d k v) k = some v := by
  induction d with
  | nil => simp [dictSet, dictFind, List.find?]
  | cons p rest ih =>
    obtain ⟨k', v'⟩ := p
    by_cases h : k' = k
    · subst h
      simp [dictSet, dictFind, List.find?]
    · simp only [dictSet, if_neg h]
      unfold dictFind
      rw [List.find?_cons_of_neg _ (by simp [h])]
      simpa [dictFind] using ih

theorem mem_keys_dictSet (d : List (List Char × Book)) (k' : List Char)
    (v : Book) (k : List Char) (h : k ∈ d.map Prod.fst) :
    k ∈ (dictSet d k' v).map Prod.fst := by
  induction d with
  | nil => simp at h
  | cons p rest ih =>
    obtain ⟨k0, v0⟩ := p
    by_cases hk : k0 = k'
    · subst hk
      simpa [dictSet] using h
    · simp only [dictSet, if_neg hk, List.map_cons, List.mem_cons] at h ⊢
      rcases h with h | h
      · exact Or.inl h
      · exact Or.inr (ih h)

/-- The first-match characterization of List.find?. -/
theorem find?_first {α : Type} (p : α → Bool) :
    ∀ (l : List α) (x : α), l.find? p = some x →
      p x = true ∧ ∃ l1 l2, l = l1 ++ x :: l2 ∧ ∀ y ∈ l1, p y = false := by
  intro l
  induction l with
  | nil => intro x h; simp [List.find?] at h
  | cons a rest ih =>
    intro x h
    by_cases ha : p a = true
    · rw [List.find?_cons_of_pos _ ha] at h
      obtain rfl : a = x := by injection h
      exact ⟨ha, [], rest, rfl, by simp⟩
    · rw [List.find?_cons_of_neg _ ha] at h
      obtain ⟨hx, l1, l2, rfl, hl1⟩ := ih x h
      refine ⟨hx, a :: l1, l2, rfl, ?_⟩
      intro y hy
      rcases List.mem_cons.mp hy with rfl | hy
      · simpa using ha
      · exact hl1 y hy

/-! ## Frame lemmas for the per-source apply functions -/

theorem add_isbn_frame (b : Book) (o : Option (List Char)) :
    (add_isbn_to_book b o).title = b.title ∧
    (add_isbn_to_book b o).author = b.author ∧
    (add_isbn_to_book b o).year = b.year ∧
    (add_isbn_to_book b o).ratings_average = b.ratings_average ∧
    (add_isbn_to_book b o).ratings_count = b.ratings_count ∧
    (add_isbn_to_book b o).want_to_read_count = b.want_to_read_count ∧
    (add_isbn_to_book b o).currently_reading_count = b.currently_reading_count ∧
    (add_isbn_to_book b o).already_read_count = b.already_read_count ∧
    (add_isbn_to_book b o).bestseller_appearances = b.bestseller_appearances ∧
    (add_isbn_to_book b o).total_weeks_on_bestseller = b.total_weeks_on_bestseller ∧
    (add_isbn_to_book b o).highest_rank = b.highest_rank ∧
    (add_isbn_to_book b o).bestseller_dates = b.bestseller_dates ∧
    (add_isbn_to_book b o).awards = b.awards ∧
    (add_isbn_to_book b o).award_count = b.award_count ∧
    (add_isbn_to_book b o).won_award = b.won_award ∧
    (add_isbn_to_book b o).shortlisted = b.shortlisted := by
  unfold add_isbn_to_book
  cases o with
  | none => simp
  | some s =>
    split
    · simp
    · dsimp only
      split_ifs <;> simp

theorem isbn_foldl_frame (l : List (List Char)) (b : Book) :
    (l.foldl (fun b i => add_isbn_to_book b (some i)) b).title = b.title ∧
    (l.foldl (fun b i => add_isbn_to_book b (some i)) b).author = b.author ∧
    (l.foldl (fun b i => add_isbn_to_book b (some i)) b).year = b.year := by
  induction l generalizing b with
  | nil => exact ⟨rfl, rfl, rfl⟩
  | cons i rest ih =>
    simp only [List.foldl_cons]
    obtain ⟨h1, h2, h3⟩ := ih (add_isbn_to_book b (some i))
    obtain ⟨g1, g2, g3, _⟩ := add_isbn_frame b (some i)
    exact ⟨h1.trans g1, h2.trans g2, h3.trans g3⟩

/-! ## C2 -/

/-- C2: every Open Library merge into a canonical record overwrites all
five reception fields unconditionally with the incoming record's values
(so the last catalog-B record merged wins), both at the level of the field
application and through the per-record step, and merging two records with
ratings_count 100 then 250 yields 250, not 350. -/
theorem openlibrary_reception_last_write_wins :
    (∀ (b : Book) (e : OLBook),
      (applyOpenlibraryData b e).ratings_average = e.ratings_average ∧
      (applyOpenlibraryData b e).ratings_count = e.ratings_count.getD 0 ∧
      (applyOpenlibraryData b e).want_to_read_count = e.want_to_read_count.getD 0 ∧
      (applyOpenlibraryData b e).currently_reading_count = e.currently_reading_count.getD 0 ∧
      (applyOpenlibraryData b e).already_read_count = e.already_read_count.getD 0) ∧
    (∀ (st : MergeState) (e : OLBook) (k : List Char) (b : Book),
      e.title.isEmpty = false →
      olResolveWith findFuzzyPair st.merged_books e = some (k, b) →
      k.isEmpty = false →
      dictFind (olStep st e).merged_books k = some (applyOpenlibraryData b e)) ∧
    ((dictFind (merge_openlibrary_data
        [{ title := "ab".toList, authors := ["cd".toList],
           isbn := ["1111111111111".toList], ratings_count := some 100 },
         { title := "zz".toList, authors := ["qq".toList],
           isbn := ["1111111111111".toList], ratings_count := some 250 }]
        initState).merged_books
        (generate_book_id "ab".toList "cd".toList)).map Book.ratings_count
      = some 250) := by
  refine ⟨?_, ?_, by decide⟩
  · intro b e
    unfold applyOpenlibraryData
    dsimp only
    split_ifs <;> simp
  · intro st e k b ht hres hk
    unfold olStep
    rw [ht]
    simp only [Bool.false_eq_true, if_false, hres, hk]
    simpa [hk] using dictFind_dictSet_self st.merged_books k (applyOpenlibraryData b e)

/-! ## Step-level helper lemmas -/

theorem applyAwardData_title (b : Book) (e : AwardEntry) :
    (applyAwardData b e).title = b.title := by
  unfold applyAwardData
  dsimp only
  split_ifs <;> simp

theorem applyAwardData_author (b : Book) (e : AwardEntry) :
    (applyAwardData b e).author = b.author := by
  unfold applyAwardData
  dsimp only
  split_ifs <;> simp

theorem applyAwardData_year (b : Book) (e : AwardEntry) :
    (applyAwardData b e).year = b.year := by
  unfold applyAwardData
  dsimp only
  split_ifs <;> simp

/-! ## NYT stage helper lemmas -/

theorem nytRankUpdate_title (b : Book) (r : Option Int) :
    (nytRankUpdate b r).title = b.title := by
  unfold nytRankUpdate
  cases r <;> cases b.highest_rank <;> simp [apply_ite Book.title]

theorem nytRankUpdate_author (b : Book) (r : Option Int) :
    (nytRankUpdate b r).author = b.author := by
  unfold nytRankUpdate
  cases r <;> cases b.highest_rank <;> simp [apply_ite Book.author]

theorem nytRankUpdate_year (b : Book) (r : Option Int) :
    (nytRankUpdate b r).year = b.year := by
  unfold nytRankUpdate
  cases r <;> cases b.highest_rank <;> simp [apply_ite Book.year]

theorem nytRankUpdate_appearances (b : Book) (r : Option Int) :
    (nytRankUpdate b r).bestseller_appearances = b.bestseller_appearances := by
  unfold nytRankUpdate
  cases r <;> cases b.highest_rank <;>
    simp [apply_ite Book.bestseller_appearances]

theorem nytRankUpdate_weeks (b : Book) (r : Option Int) :
    (nytRankUpdate b r).total_weeks_on_bestseller =
      b.total_weeks_on_bestseller := by
  unfold nytRankUpdate
  cases r <;> cases b.highest_rank <;>
    simp [apply_ite Book.total_weeks_on_bestseller]

theorem nytRankUpdate_dates (b : Book) (r : Option Int) :
    (nytRankUpdate b r).bestseller_dates = b.bestseller_dates := by
  unfold nytRankUpdate
  cases r <;> cases b.highest_rank <;> simp [apply_ite Book.bestseller_dates]

theorem nytRankUpdate_rankval (b : Book) (r : Option Int) :
    (nytRankUpdate b r).highest_rank =
      (match r, b.highest_rank with
        | none, h => h
        | some x, none => if x = 0 then none else some x
        | some x, some h => if x ≠ 0 ∧ x < h then some x else some h) := by
  unfold nytRankUpdate
  cases r <;> cases hb : b.highest_rank <;>
    simp_all [apply_ite Book.highest_rank] <;> split_ifs <;> simp_all

theorem nytDateUpdate_title (b : Book) (d : Option (List Char)) :
    (nytDateUpdate b d).title = b.title := by
  unfold nytDateUpdate
  cases d <;> simp [apply_ite Book.title]

theorem nytDateUpdate_author (b : Book) (d : Option (List Char)) :
    (nytDateUpdate b d).author = b.author := by
  unfold nytDateUpdate
  cases d <;> simp [apply_ite Book.author]

theorem nytDateUpdate_year (b : Book) (d : Option (List Char)) :
    (nytDateUpdate b d).year = b.year := by
  unfold nytDateUpdate
  cases d <;> simp [apply_ite Book.year]

theorem nytDateUpdate_appearances (b : Book) (d : Option (List Char)) :
    (nytDateUpdate b d).bestseller_appearances = b.bestseller_appearances := by
  unfold nytDateUpdate
  cases d <;> simp [apply_ite Book.bestseller_appearances]

theorem nytDateUpdate_weeks (b : Book) (d : Option (List Char)) :
    (nytDateUpdate b d).total_weeks_on_bestseller =
      b.total_weeks_on_bestseller := by
  unfold nytDateUpdate
  cases d <;> simp [apply_ite Book.total_weeks_on_bestseller]

theorem nytDateUpdate_rank (b : Book) (d : Option (List Char)) :
    (nytDateUpdate b d).highest_rank = b.highest_rank := by
  unfold nytDateUpdate
  cases d <;> simp [apply_ite Book.highest_rank]

theorem nytDateUpdate_dates (b : Book) (d : Option (List Char)) :
    (nytDateUpdate b d).bestseller_dates =
      (match d with
        | none => b.bestseller_dates
        | some d' =>
          if d'.isEmpty = true ∨ d' ∈ b.bestseller_dates then
            b.bestseller_dates
          else b.bestseller_dates ++ [d']) := by
  unfold nytDateUpdate
  cases d <;> simp [apply_ite Book.bestseller_dates]

theorem nytSourceUpdate_title (b : Book) :
    (nytSourceUpdate b).title = b.title := by
  unfold nytSourceUpdate
  simp [apply_ite Book.title]

theorem nytSourceUpdate_author (b : Book) :
    (nytSourceUpdate b).author = b.author := by
  unfold nytSourceUpdate
  simp [apply_ite Book.author]

theorem nytSourceUpdate_year (b : Book) :
    (nytSourceUpdate b).year = b.year := by
  unfold nytSourceUpdate
  simp [apply_ite Book.year]

theorem nytSourceUpdate_appearances (b : Book) :
    (nytSourceUpdate b).bestseller_appearances =
      b.bestseller_appearances := by
  unfold nytSourceUpdate
  simp [apply_ite Book.bestseller_appearances]

theorem nytSourceUpdate_weeks (b : Book) :
    (nytSourceUpdate b).total_weeks_on_bestseller =
      b.total_weeks_on_bestseller := by
  unfold nytSourceUpdate
  simp [apply_ite Book.total_weeks_on_bestseller]

theorem nytSourceUpdate_rank (b : Book) :
    (nytSourceUpdate b).highest_rank = b.highest_rank := by
  unfold nytSourceUpdate
  simp [apply_ite Book.highest_rank]

theorem nytSourceUpdate_dates (b : Book) :
    (nytSourceUpdate b).bestseller_dates = b.bestseller_dates := by
  unfold nytSourceUpdate
  simp [apply_ite Book.bestseller_dates]

theorem applyNytData_appearances (b : Book) (e : NytBook) :
    (applyNytData b e).bestseller_appearances = b.bestseller_appearances + 1 := by
  obtain ⟨-, -, -, -, -, -, -, -, h9, -, -, -, -⟩ :=
    add_isbn_frame (add_isbn_to_book b e.primary_isbn13) e.primary_isbn10
  obtain ⟨-, -, -, -, -, -, -, -, g9, -, -, -, -⟩ := add_isbn_frame b e.primary_isbn13
  unfold applyNytData
  dsimp only
  simp [nytSourceUpdate_appearances, nytDateUpdate_appearances,
    nytRankUpdate_appearances, h9, g9]

theorem applyNytData_weeks (b : Book) (e : NytBook) :
    (applyNytData b e).total_weeks_on_bestseller =
      b.total_weeks_on_bestseller + e.weeks_on_list.getD 0 := by
  obtain ⟨-, -, -, -, -, -, -, -, -, h10, -, -, -⟩ :=
    add_isbn_frame (add_isbn_to_book b e.primary_isbn13) e.primary_isbn10
  obtain ⟨-, -, -, -, -, -, -, -, -, g10, -, -, -⟩ := add_isbn_frame b e.primary_isbn13
  unfold applyNytData
  dsimp only
  simp [nytSourceUpdate_weeks, nytDateUpdate_weeks, nytRankUpdate_weeks,
    h10, g10]

theorem applyNytData_rank (b : Book) (e : NytBook) :
    (applyNytData b e).highest_rank =
      (match e.rank, b.highest_rank with
        | none, h => h
        | some r, none => if r = 0 then none else some r
        | some r, some h => if r ≠ 0 ∧ r < h then some r else some h) := by
  obtain ⟨-, -, -, -, -, -, -, -, -, -, h11, -, -⟩ :=
    add_isbn_frame (add_isbn_to_book b e.primary_isbn13) e.primary_isbn10
  obtain ⟨-, -, -, -, -, -, -, -, -, -, g11, -, -⟩ := add_isbn_frame b e.primary_isbn13
  unfold applyNytData
  dsimp only
  rw [nytSourceUpdate_rank, nytDateUpdate_rank, nytRankUpdate_rankval]
  simp [h11, g11]

theorem applyNytData_dates (b : Book) (e : NytBook) :
    (applyNytData b e).bestseller_dates =
      (match e.bestseller_date with
        | none => b.bestseller_dates
        | some d =>
          if d.isEmpty = true ∨ d ∈ b.bestseller_dates then b.bestseller_dates
          else b.bestseller_dates ++ [d]) := by
  obtain ⟨-, -, -, -, -, -, -, -, -, -, -, h12, -⟩ :=
    add_isbn_frame (add_isbn_to_book b e.primary_isbn13) e.primary_isbn10
  obtain ⟨-, -, -, -, -, -, -, -, -, -, -, g12, -⟩ := add_isbn_frame b e.primary_isbn13
  unfold applyNytData
  dsimp only
  rw [nytSourceUpdate_dates, nytDateUpdate_dates]
  simp [nytRankUpdate_dates, h12, g12]

theorem awardStep_match (st : MergeState) (e : AwardEntry) (k : List Char)
    (b : Book) (ht : e.Title.isEmpty = false) (ha : e.Author.isEmpty = false)
    (hr : findFuzzyPair st.merged_books e.Title e.Author = some (k, b))
    (hk : k.isEmpty = false) :
    awardStep st e =
      { st with
        merged_books := dictSet st.merged_books k (applyAwardData b e),
        awards_matched := st.awards_matched + 1 } := by
  unfold awardStep
  rw [ht, ha, hr]
  simp [hk]

theorem awardStep_create (st : MergeState) (e : AwardEntry)
    (ht : e.Title.isEmpty = false) (ha : e.Author.isEmpty = false)
    (hr : findFuzzyPair st.merged_books e.Title e.Author = none) :
    awardStep st e =
      { st with
        merged_books := dictSet st.merged_books
          (generate_book_id e.Title e.Author)
          (applyAwardData
            (create_base_book_entry e.Title e.Author e.Year) e),
        awards_matched := st.awards_matched + 1 } := by
  unfold awardStep
  rw [ht, ha, hr]
  simp

/-! ## C3 -/

/-- C3: every award record merged into a canonical record appends exactly
one entry to the awards list with no deduplication, increments award_count
by one, and updates won_award and shortlisted monotonically (they are the
disjunction of the old flag with the incoming status test, so they are
never reset); merging three award records (two Winner, one Finalist) for
the same resolved book yields award_count 3, won_award, shortlisted, and
an awards list of length 3. -/
theorem awards_accumulation :
    (∀ (b : Book) (e : AwardEntry),
      (applyAwardData b e).awards =
        b.awards ++ [⟨e.Award, e.Year, e.Status, e.Publisher⟩] ∧
      (applyAwardData b e).award_count = b.award_count + 1 ∧
      (applyAwardData b e).won_award =
        (b.won_award || e.Status == "Winner".toList) ∧
      (applyAwardData b e).shortlisted =
        (b.shortlisted || e.Status == "Shortlist".toList ||
          e.Status == "Finalist".toList)) ∧
    ((fun st =>
      (dictFind st.merged_books (generate_book_id "ab".toList "cd".toList)).map
          (fun b => (b.award_count, b.won_award, b.shortlisted, b.awards.length))
        = some (3, true, true, 3))
      (merge_awards_data
        [{ Title := "ab".toList, Author := "cd".toList, Year := some 2021,
           Status := "Winner".toList, Award := "Booker Prize".toList },
         { Title := "ab".toList, Author := "cd".toList, Year := some 2021,
           Status := "Winner".toList, Award := "National Book Award".toList },
         { Title := "ab".toList, Author := "cd".toList, Year := some 2022,
           Status := "Finalist".toList, Award := "Pulitzer Prize".toList }]
        initState)) := by
  constructor
  · intro b e
    unfold applyAwardData
    dsimp only
    split_ifs with h1 h2 h3 h4 h5 h6 <;>
      simp_all <;>
      cases b.won_award <;>
      cases b.shortlisted <;>
      simp_all
  · -- the kernel cannot reduce the rational comparisons inside
    -- fuzzy_match, so the three steps are evaluated by hand
    have hcs : ∀ s : List Char, s = "ab".toList ∨ s = "cd".toList →
        calculate_similarity s s = 1 := by
      intro s hs
      have hm : matchTotal s s = 2 := by
        rcases hs with rfl | rfl <;> decide
      have hl : s.length = 2 := by
        rcases hs with rfl | rfl <;> decide
      unfold calculate_similarity smRatio
      rw [if_neg (by rcases hs with rfl | rfl <;> decide), hm, hl]
      norm_num
    have hfm : fuzzy_match "ab".toList "cd".toList "ab".toList "cd".toList
        = true := by
      unfold fuzzy_match
      rw [show normalize_text "ab".toList = "ab".toList from by decide,
          show normalize_text "cd".toList = "cd".toList from by decide,
          hcs _ (Or.inl rfl), hcs _ (Or.inr rfl)]
      norm_num
    have hfil : ∀ l : List AwardEntry,
        (∀ e ∈ l, (decide (2020 ≤ e.Year.getD 0 ∧ e.Year.getD 0 ≤ 2025)) = true) →
        List.filter (fun e => decide (2020 ≤ e.Year.getD 0 ∧ e.Year.getD 0 ≤ 2025)) l
          = l := by
      intro l hl
      exact List.filter_eq_self.mpr hl
    dsimp only
    unfold merge_awards_data
    rw [hfil _ (by decide)]
    simp only [List.foldl_cons, List.foldl_nil]
    rw [awardStep_create initState _ (by decide) (by decide) (by decide)]
    have hstep : ∀ (e : AwardEntry) (b : Book) u1 u2 u3 u4 a1 a2 a3 a4 a5 a6 a7,
        e.Title = "ab".toList → e.Author = "cd".toList →
        b.title = "ab".toList → b.author = "cd".toList →
        awardStep
          ⟨[(generate_book_id "ab".toList "cd".toList, b)],
            u1, u2, u3, u4, a1, a2, a3, a4, a5, a6, a7⟩ e =
          ⟨[(generate_book_id "ab".toList "cd".toList, applyAwardData b e)],
            u1, u2, u3, u4, a1 + 1, a2, a3, a4, a5, a6, a7⟩ := by
      intro e b u1 u2 u3 u4 a1 a2 a3 a4 a5 a6 a7 he1 he2 hb1 hb2
      set st : MergeState :=
        ⟨[(generate_book_id "ab".toList "cd".toList, b)],
          u1, u2, u3, u4, a1, a2, a3, a4, a5, a6, a7⟩ with hst
      have hr : findFuzzyPair st.merged_books e.Title e.Author =
          some (generate_book_id "ab".toList "cd".toList, b) := by
        rw [hst, he1, he2]
        unfold findFuzzyPair
        rw [List.find?_cons_of_pos _ (by simpa [hb1, hb2] using hfm)]
      have := awardStep_match st e _ b (by rw [he1]; decide)
        (by rw [he2]; decide) hr (by decide)
      rw [this, hst]
      simp [dictSet]
    simp only [initState, dictSet, hstep, applyAwardData_title,
      applyAwardData_author, create_base_book_entry]
    simp only [dictFind, List.find?,
      show (generate_book_id "ab".toList "cd".toList ==
        generate_book_id "ab".toList "cd".toList) = true from by simp]
    decide

/-! ## C4 -/

/-- C4: every bestseller record merged into a canonical record increments
bestseller_appearances by one and adds its weeks_on_list to the running
total; highest_rank becomes the incoming rank exactly when that rank is
truthy and is either the first seen or numerically smaller than the
current one; the bestseller date is appended only when truthy and not
already present; and the concrete two-record case (weeks 3 and 5, ranks 4
and 2) yields total 8, two appearances, and highest_rank the smaller
rank. -/
theorem bestseller_accumulation :
    (∀ (b : Book) (e : NytBook),
      (applyNytData b e).bestseller_appearances = b.bestseller_appearances + 1 ∧
      (applyNytData b e).total_weeks_on_bestseller =
        b.total_weeks_on_bestseller + e.weeks_on_list.getD 0 ∧
      (applyNytData b e).highest_rank =
        (match e.rank, b.highest_rank with
          | none, h => h
          | some r, none => if r = 0 then none else some r
          | some r, some h => if r ≠ 0 ∧ r < h then some r else some h) ∧
      (applyNytData b e).bestseller_dates =
        (match e.bestseller_date with
          | none => b.bestseller_dates
          | some d =>
            if d.isEmpty = true ∨ d ∈ b.bestseller_dates then b.bestseller_dates
            else b.bestseller_dates ++ [d])) ∧
    ((fun st =>
      (dictFind st.merged_books (generate_book_id "ab".toList "cd".toList)).map
          (fun b => (b.bestseller_appearances, b.total_weeks_on_bestseller,
                     b.highest_rank, b.bestseller_dates.length))
        = some (2, 8, some (min 4 2), 2))
      (merge_nyt_bestsellers_data
        [{ title := "ab".toList, author := "cd".toList,
           primary_isbn13 := some "1111111111111".toList, rank := some 4,
           weeks_on_list := some 3,
           bestseller_date := some "2023-01-01".toList },
         { title := "ab".toList, author := "cd".toList,
           primary_isbn13 := some "1111111111111".toList, rank := some 2,
           weeks_on_list := some 5,
           bestseller_date := some "2023-01-08".toList }]
        initState)) := by
  exact ⟨fun b e => ⟨applyNytData_appearances b e, applyNytData_weeks b e,
    applyNytData_rank b e, applyNytData_dates b e⟩, by decide⟩

/-! ## Identity-field frame lemmas for the other apply functions -/

/-! ## Google stage helper lemmas -/

theorem googlePublisherUpdate_identity (b : Book) (e : GoogleBook) :
    (googlePublisherUpdate b e).title = b.title ∧
    (googlePublisherUpdate b e).author = b.author ∧
    (googlePublisherUpdate b e).year = b.year := by
  unfold googlePublisherUpdate
  split_ifs <;> exact ⟨rfl, rfl, rfl⟩

theorem googlePageUpdate_identity (b : Book) (e : GoogleBook) :
    (googlePageUpdate b e).title = b.title ∧
    (googlePageUpdate b e).author = b.author ∧
    (googlePageUpdate b e).year = b.year := by
  unfold googlePageUpdate
  split_ifs <;> exact ⟨rfl, rfl, rfl⟩

theorem googleLanguageUpdate_identity (b : Book) (e : GoogleBook) :
    (googleLanguageUpdate b e).title = b.title ∧
    (googleLanguageUpdate b e).author = b.author ∧
    (googleLanguageUpdate b e).year = b.year := by
  unfold googleLanguageUpdate
  split_ifs <;> exact ⟨rfl, rfl, rfl⟩

theorem googleDescriptionUpdate_identity (b : Book) :
    (googleDescriptionUpdate b).title = b.title ∧
    (googleDescriptionUpdate b).author = b.author ∧
    (googleDescriptionUpdate b).year = b.year := by
  unfold googleDescriptionUpdate
  split_ifs <;> exact ⟨rfl, rfl, rfl⟩

theorem googleCategoriesUpdate_identity (b : Book) (e : GoogleBook) :
    (googleCategoriesUpdate b e).title = b.title ∧
    (googleCategoriesUpdate b e).author = b.author ∧
    (googleCategoriesUpdate b e).year = b.year :=
  ⟨rfl, rfl, rfl⟩

theorem googleIdUpdate_identity (b : Book) (e : GoogleBook) :
    (googleIdUpdate b e).title = b.title ∧
    (googleIdUpdate b e).author = b.author ∧
    (googleIdUpdate b e).year = b.year :=
  ⟨rfl, rfl, rfl⟩

theorem googleSourceUpdate_identity (b : Book) :
    (googleSourceUpdate b).title = b.title ∧
    (googleSourceUpdate b).author = b.author ∧
    (googleSourceUpdate b).year = b.year := by
  unfold googleSourceUpdate
  split_ifs <;> exact ⟨rfl, rfl, rfl⟩

theorem applyGoogleData_identity (b : Book) (e : GoogleBook) :
    (applyGoogleData b e).title = b.title ∧
    (applyGoogleData b e).author = b.author ∧
    (applyGoogleData b e).year = b.year := by
  obtain ⟨h1, h2, h3, -⟩ :=
    add_isbn_frame (add_isbn_to_book b e.isbn_13) e.isbn_10
  obtain ⟨g1, g2, g3, -⟩ := add_isbn_frame b e.isbn_13
  unfold applyGoogleData
  dsimp only
  refine ⟨?_, ?_, ?_⟩
  · rw [(googleSourceUpdate_identity _).1, (googleIdUpdate_identity _ _).1,
      (googleCategoriesUpdate_identity _ _).1,
      (googleDescriptionUpdate_identity _).1,
      (googleLanguageUpdate_identity _ _).1, (googlePageUpdate_identity _ _).1,
      (googlePublisherUpdate_identity _ _).1, h1, g1]
  · rw [(googleSourceUpdate_identity _).2.1, (googleIdUpdate_identity _ _).2.1,
      (googleCategoriesUpdate_identity _ _).2.1,
      (googleDescriptionUpdate_identity _).2.1,
      (googleLanguageUpdate_identity _ _).2.1,
      (googlePageUpdate_identity _ _).2.1,
      (googlePublisherUpdate_identity _ _).2.1, h2, g2]
  · rw [(googleSourceUpdate_identity _).2.2, (googleIdUpdate_identity _ _).2.2,
      (googleCategoriesUpdate_identity _ _).2.2,
      (googleDescriptionUpdate_identity _).2.2,
      (googleLanguageUpdate_identity _ _).2.2,
      (googlePageUpdate_identity _ _).2.2,
      (googlePublisherUpdate_identity _ _).2.2, h3, g3]

theorem applyOpenlibraryData_identity (b : Book) (e : OLBook) :
    (applyOpenlibraryData b e).title = b.title ∧
    (applyOpenlibraryData b e).author = b.author ∧
    (applyOpenlibraryData b e).year = b.year := by
  obtain ⟨h1, h2, h3⟩ := isbn_foldl_frame e.isbn b
  unfold applyOpenlibraryData
  dsimp only
  split_ifs <;> simp_all

theorem applyNytData_identity (b : Book) (e : NytBook) :
    (applyNytData b e).title = b.title ∧
    (applyNytData b e).author = b.author ∧
    (applyNytData b e).year = b.year := by
  obtain ⟨h1, h2, h3, -⟩ :=
    add_isbn_frame (add_isbn_to_book b e.primary_isbn13) e.primary_isbn10
  obtain ⟨g1, g2, g3, -⟩ := add_isbn_frame b e.primary_isbn13
  unfold applyNytData
  dsimp only
  refine ⟨?_, ?_, ?_⟩ <;>
    simp [nytSourceUpdate_title, nytSourceUpdate_author, nytSourceUpdate_year,
      nytDateUpdate_title, nytDateUpdate_author, nytDateUpdate_year,
      nytRankUpdate_title, nytRankUpdate_author, nytRankUpdate_year,
      h1, h2, h3, g1, g2, g3]

/-! ## C8 -/

/-- C8 counterexample: a canonical record created by a Google record with a
null year keeps year = None even after an Open Library record carrying year
2021 is merged into it (ol_matched = 1 and its ratings were written, so the
record was resolved, yet the null year is not filled in), refuting the
first-non-null-year-wins reading. -/
theorem year_not_backfilled_cx :
    ((merge_openlibrary_data
        [{ title := "ab".toList, authors := ["cd".toList],
           year := some 2021, ratings_count := some 7 }]
        (merge_google_books_data
          [{ title := "ab".toList, authors := ["cd".toList] }]
          initState)).ol_matched = 1 ∧
      (dictFind (merge_openlibrary_data
        [{ title := "ab".toList, authors := ["cd".toList],
           year := some 2021, ratings_count := some 7 }]
        (merge_google_books_data
          [{ title := "ab".toList, authors := ["cd".toList] }]
          initState)).merged_books
        (generate_book_id "ab".toList "cd".toList)).map
          (fun b => (b.year, b.ratings_count)) = some (none, 7)) ∧
    ¬ ((dictFind (merge_openlibrary_data
        [{ title := "ab".toList, authors := ["cd".toList],
           year := some 2021, ratings_count := some 7 }]
        (merge_google_books_data
          [{ title := "ab".toList, authors := ["cd".toList] }]
          initState)).merged_books
        (generate_book_id "ab".toList "cd".toList)).map Book.year
      = some (some 2021)) := by
  have hcs : calculate_similarity "ab".toList "ab".toList = 1 ∧
      calculate_similarity "cd".toList "cd".toList = 1 := by
    constructor
    · unfold calculate_similarity smRatio
      rw [if_neg (by decide),
        show matchTotal "ab".toList "ab".toList = 2 from by decide,
        show ("ab".toList).length = 2 from by decide]
      norm_num
    · unfold calculate_similarity smRatio
      rw [if_neg (by decide),
        show matchTotal "cd".toList "cd".toList = 2 from by decide,
        show ("cd".toList).length = 2 from by decide]
      norm_num
  have hfm : fuzzy_match "ab".toList "cd".toList "ab".toList "cd".toList
      = true := by
    unfold fuzzy_match
    rw [show normalize_text "ab".toList = "ab".toList from by decide,
        show normalize_text "cd".toList = "cd".toList from by decide,
        hcs.1, hcs.2]
    norm_num
  have hg : merge_google_books_data
      [{ title := "ab".toList, authors := ["cd".toList] }] initState =
      { initState with
        merged_books := [(generate_book_id "ab".toList "cd".toList,
          applyGoogleData
            (create_base_book_entry "ab".toList "cd".toList none)
            { title := "ab".toList, authors := ["cd".toList] })],
        unmatched_google := [{ title := "ab".toList, authors := ["cd".toList] }],
        google_unmatched := 1 } := by decide
  rw [hg]
  unfold merge_openlibrary_data
  simp only [List.foldl_cons, List.foldl_nil]
  unfold olStep
  rw [if_neg (by decide)]
  have hres : olResolveWith findFuzzyPair
      [(generate_book_id "ab".toList "cd".toList,
        applyGoogleData (create_base_book_entry "ab".toList "cd".toList none)
          { title := "ab".toList, authors := ["cd".toList] })]
      { title := "ab".toList, authors := ["cd".toList],
        year := some 2021, ratings_count := some 7 } =
      some (generate_book_id "ab".toList "cd".toList,
        applyGoogleData (create_base_book_entry "ab".toList "cd".toList none)
          { title := "ab".toList, authors := ["cd".toList] }) := by
    unfold olResolveWith
    rw [if_pos (by decide)]
    unfold findFuzzyPair
    rw [List.find?_cons_of_pos _ (by simpa using hfm)]
  rw [hres]
  decide

/-- C8 amended: the identity fields title, author and year are fixed when a
canonical record is created: every per-source apply merge preserves all
three (in particular a later source record carrying a year never fills in
a null year; the fields change only if an unmatched record with a
colliding generated id replaces the whole entry). -/
theorem identity_fields_frame :
    ∀ (b : Book) (ea : AwardEntry) (eg : GoogleBook) (eo : OLBook)
      (en : NytBook),
      (applyAwardData b ea).title = b.title ∧
      (applyAwardData b ea).author = b.author ∧
      (applyAwardData b ea).year = b.year ∧
      (applyGoogleData b eg).title = b.title ∧
      (applyGoogleData b eg).author = b.author ∧
      (applyGoogleData b eg).year = b.year ∧
      (applyOpenlibraryData b eo).title = b.title ∧
      (applyOpenlibraryData b eo).author = b.author ∧
      (applyOpenlibraryData b eo).year = b.year ∧
      (applyNytData b en).title = b.title ∧
      (applyNytData b en).author = b.author ∧
      (applyNytData b en).year = b.year := by
  intro b ea eg eo en
  obtain ⟨g1, g2, g3⟩ := applyGoogleData_identity b eg
  obtain ⟨o1, o2, o3⟩ := applyOpenlibraryData_identity b eo
  obtain ⟨n1, n2, n3⟩ := applyNytData_identity b en
  exact ⟨applyAwardData_title b ea, applyAwardData_author b ea,
    applyAwardData_year b ea, g1, g2, g3, o1, o2, o3, n1, n2, n3⟩

/-! ## Step shape lemmas: each step leaves merged_books alone or writes one key -/

theorem awardStep_books_shape (st : MergeState) (e : AwardEntry) :
    (awardStep st e).merged_books = st.merged_books ∨
    ∃ k v, (awardStep st e).merged_books = dictSet st.merged_books k v := by
  unfold awardStep
  split
  · exact Or.inl rfl
  · cases h : findFuzzyPair st.merged_books e.Title e.Author with
    | none => exact Or.inr ⟨_, _, rfl⟩
    | some p =>
      obtain ⟨k, b⟩ := p
      by_cases hk : k.isEmpty = true
      · simp only [hk, if_true]
        exact Or.inr ⟨_, _, rfl⟩
      · simp only [hk, if_false]
        exact Or.inr ⟨_, _, rfl⟩

theorem googleStep_books_shape (st : MergeState) (e : GoogleBook) :
    (googleStep st e).merged_books = st.merged_books ∨
    ∃ k v, (googleStep st e).merged_books = dictSet st.merged_books k v := by
  unfold googleStep
  split
  · exact Or.inl rfl
  · cases h : googleResolveWith findFuzzyPair st.merged_books e with
    | none => exact Or.inr ⟨_, _, rfl⟩
    | some p =>
      obtain ⟨k, b⟩ := p
      by_cases hk : k.isEmpty = true
      · simp only [hk, if_true]
        exact Or.inr ⟨_, _, rfl⟩
      · simp only [hk, if_false]
        exact Or.inr ⟨_, _, rfl⟩

theorem olStep_books_shape (st : MergeState) (e : OLBook) :
    (olStep st e).merged_books = st.merged_books ∨
    ∃ k v, (olStep st e).merged_books = dictSet st.merged_books k v := by
  unfold olStep
  split
  · exact Or.inl rfl
  · cases h : olResolveWith findFuzzyPair st.merged_books e with
    | none => exact Or.inr ⟨_, _, rfl⟩
    | some p =>
      obtain ⟨k, b⟩ := p
      by_cases hk : k.isEmpty = true
      · simp only [hk, if_true]
        exact Or.inr ⟨_, _, rfl⟩
      · simp only [hk, if_false]
        exact Or.inr ⟨_, _, rfl⟩

theorem nytStep_books_shape (st : MergeState) (e : NytBook) :
    (nytStep st e).merged_books = st.merged_books ∨
    ∃ k v, (nytStep st e).merged_books = dictSet st.merged_books k v := by
  unfold nytStep
  split
  · exact Or.inl rfl
  · cases h : nytResolveWith findFuzzyPair st.merged_books e with
    | none => exact Or.inr ⟨_, _, rfl⟩
    | some p =>
      obtain ⟨k, b⟩ := p
      by_cases hk : k.isEmpty = true
      · simp only [hk, if_true]
        exact Or.inr ⟨_, _, rfl⟩
      · simp only [hk, if_false]
        exact Or.inr ⟨_, _, rfl⟩

/-! ## C7 -/

/-- C7 counterexample: an NYT record (title x, empty author, an ISBN)
creates a canonical record holding that ISBN; a second NYT record with the
same title, empty author and no identifiers fails resolution (fuzzy
matching is skipped for an empty author), regenerates the same id, and its
fresh base record replaces the existing canonical record, erasing the
accumulated ISBN — so a merge step can overwrite a canonical record with a
fresh base record. -/
theorem canonical_record_overwrite_cx :
    ((dictFind (nytStep initState
        { title := "x".toList,
          primary_isbn13 := some "1111111111111".toList }).merged_books
        "x_".toList).map Book.isbn_all =
      some ["1111111111111".toList] ∧
    (dictFind (nytStep (nytStep initState
        { title := "x".toList,
          primary_isbn13 := some "1111111111111".toList })
        { title := "x".toList }).merged_books "x_".toList).map Book.isbn_all =
      some [] ∧
    (nytStep (nytStep initState
        { title := "x".toList,
          primary_isbn13 := some "1111111111111".toList })
        { title := "x".toList }).merged_books.length = 1) := by decide

/-- C7 amended: canonical records are never deleted: every merge step
preserves every existing key of the canonical collection, and the
collection size never shrinks.  However a step may replace the record
stored under an existing key with a fresh base entry, when an unmatched
source record generates a colliding id (see the counterexample), so the
stored data does not always accumulate. -/
theorem canonical_keys_preserved :
    ∀ (st : MergeState) (ea : AwardEntry) (eg : GoogleBook) (eo : OLBook)
      (en : NytBook) (k : List Char),
      k ∈ st.merged_books.map Prod.fst →
      k ∈ (awardStep st ea).merged_books.map Prod.fst ∧
      k ∈ (googleStep st eg).merged_books.map Prod.fst ∧
      k ∈ (olStep st eo).merged_books.map Prod.fst ∧
      k ∈ (nytStep st en).merged_books.map Prod.fst := by
  intro st ea eg eo en k hk
  refine ⟨?_, ?_, ?_, ?_⟩
  · rcases awardStep_books_shape st ea with h | ⟨k', v, h⟩
    · rwa [h]
    · rw [h]; exact mem_keys_dictSet _ _ _ _ hk
  · rcases googleStep_books_shape st eg with h | ⟨k', v, h⟩
    · rwa [h]
    · rw [h]; exact mem_keys_dictSet _ _ _ _ hk
  · rcases olStep_books_shape st eo with h | ⟨k', v, h⟩
    · rwa [h]
    · rw [h]; exact mem_keys_dictSet _ _ _ _ hk
  · rcases nytStep_books_shape st en with h | ⟨k', v, h⟩
    · rwa [h]
    · rw [h]; exact mem_keys_dictSet _ _ _ _ hk

/-- C7 witness: the key preservation theorem applied to a concrete state
holding one canonical record and one concrete record per source. -/
theorem canonical_keys_preserved_witness :
    "x_".toList ∈ (awardStep
      { merged_books := [("x_".toList,
          create_base_book_entry "x".toList [] none)] }
      { Title := "t".toList, Author := "a".toList,
        Year := some 2021 }).merged_books.map Prod.fst ∧
    "x_".toList ∈ (googleStep
      { merged_books := [("x_".toList,
          create_base_book_entry "x".toList [] none)] }
      { title := "t".toList }).merged_books.map Prod.fst ∧
    "x_".toList ∈ (olStep
      { merged_books := [("x_".toList,
          create_base_book_entry "x".toList [] none)] }
      { title := "t".toList }).merged_books.map Prod.fst ∧
    "x_".toList ∈ (nytStep
      { merged_books := [("x_".toList,
          create_base_book_entry "x".toList [] none)] }
      { title := "t".toList }).merged_books.map Prod.fst :=
  canonical_keys_preserved
    { merged_books := [("x_".toList, create_base_book_entry "x".toList [] none)] }
    { Title := "t".toList, Author := "a".toList, Year := some 2021 }
    { title := "t".toList } { title := "t".toList } { title := "t".toList }
    "x_".toList (by decide)

/-! ## C9 -/

/-- C9 counterexample: an award record without a title is skipped outright
by merge_awards_data: it is not merged, but contrary to the claim it is
also not appended to the awards unmatched collection, which stays empty
(the other three sources do route titleless records to their unmatched
lists). -/
theorem awards_missing_fields_not_unmatched_cx :
    (({ Author := "a".toList, Year := some 2021 } : AwardEntry).Title = [] ∧
    (merge_awards_data [{ Author := "a".toList, Year := some 2021 }]
      initState).merged_books = [] ∧
    (merge_awards_data [{ Author := "a".toList, Year := some 2021 }]
      initState).unmatched_awards = [] ∧
    ¬ (({ Author := "a".toList, Year := some 2021 } : AwardEntry) ∈
        (merge_awards_data [{ Author := "a".toList, Year := some 2021 }]
          initState).unmatched_awards)) := by decide

/-- C9 amended: a Google Books, Open Library or NYT record without a
usable title is appended to that source's unmatched collection and the
state is otherwise untouched (so it is not merged and processing
continues); an award record lacking a title or author is skipped entirely
— not merged, and not recorded in any unmatched collection either. -/
theorem missing_title_routing :
    ∀ (st : MergeState),
      (∀ eg : GoogleBook, eg.title = [] →
        googleStep st eg =
          { st with unmatched_google := st.unmatched_google ++ [eg] }) ∧
      (∀ eo : OLBook, eo.title = [] →
        olStep st eo =
          { st with
            unmatched_openlibrary := st.unmatched_openlibrary ++ [eo] }) ∧
      (∀ en : NytBook, en.title = [] →
        nytStep st en =
          { st with unmatched_nyt := st.unmatched_nyt ++ [en] }) ∧
      (∀ ea : AwardEntry, ea.Title = [] ∨ ea.Author = [] →
        awardStep st ea = st) := by
  intro st
  refine ⟨?_, ?_, ?_, ?_⟩
  · intro eg h
    unfold googleStep
    rw [if_pos (by simp [h])]
  · intro eo h
    unfold olStep
    rw [if_pos (by simp [h])]
  · intro en h
    unfold nytStep
    rw [if_pos (by simp [h])]
  · intro ea h
    unfold awardStep
    rcases h with h | h <;> rw [if_pos (by simp [h])]

/-- C9 witness: the routing theorem at the empty state and concrete
titleless records of each source. -/
theorem missing_title_routing_witness :
    (googleStep initState { authors := ["z".toList] } =
      { initState with unmatched_google := [{ authors := ["z".toList] }] }) ∧
    (olStep initState { authors := ["z".toList] } =
      { initState with
        unmatched_openlibrary := [{ authors := ["z".toList] }] }) ∧
    (nytStep initState { author := "z".toList } =
      { initState with unmatched_nyt := [{ author := "z".toList }] }) ∧
    (awardStep initState { Author := "z".toList } = initState) := by
  obtain ⟨h1, h2, h3, h4⟩ := missing_title_routing initState
  exact ⟨h1 _ rfl, h2 _ rfl, h3 _ rfl, h4 _ (Or.inl rfl)⟩

/-! ## C10 -/

/-- C10: for a Google Books, Open Library or NYT record with a non-empty
title and an empty (or missing) author, fuzzy matching is never attempted:
the resolution result equals identifier-only resolution for every possible
fuzzy finder, and when identifier resolution fails, the step stores a
brand-new base record under the generated id (which, if an existing
canonical record generated the same id, replaces it rather than merging). -/
theorem empty_author_skips_fuzzy :
    (∀ (fm : FuzzyFinder) (books : List (List Char × Book)) (eg : GoogleBook),
      joinAuthors eg.authors = [] →
      googleResolveWith fm books eg = googleIsbnResolve books eg) ∧
    (∀ (fm : FuzzyFinder) (books : List (List Char × Book)) (eo : OLBook),
      joinAuthors eo.authors = [] →
      olResolveWith fm books eo = olIsbnResolve books eo.isbn) ∧
    (∀ (fm : FuzzyFinder) (books : List (List Char × Book)) (en : NytBook),
      en.author = [] →
      nytResolveWith fm books en = nytIsbnResolve books en) ∧
    (∀ (st : MergeState) (eg : GoogleBook),
      eg.title.isEmpty = false → joinAuthors eg.authors = [] →
      googleIsbnResolve st.merged_books eg = none →
      (googleStep st eg).merged_books =
        dictSet st.merged_books (generate_book_id eg.title [])
          (applyGoogleData
            (create_base_book_entry eg.title [] eg.year) eg)) ∧
    (∀ (st : MergeState) (eo : OLBook),
      eo.title.isEmpty = false → joinAuthors eo.authors = [] →
      olIsbnResolve st.merged_books eo.isbn = none →
      (olStep st eo).merged_books =
        dictSet st.merged_books (generate_book_id eo.title [])
          (applyOpenlibraryData
            (create_base_book_entry eo.title [] eo.year) eo)) ∧
    (∀ (st : MergeState) (en : NytBook),
      en.title.isEmpty = false → en.author = [] →
      nytIsbnResolve st.merged_books en = none →
      (nytStep st en).merged_books =
        dictSet st.merged_books (generate_book_id en.title [])
          (applyNytData
            (create_base_book_entry en.title [] none) en)) := by
  refine ⟨?_, ?_, ?_, ?_, ?_, ?_⟩
  · intro fm books eg h
    unfold googleResolveWith
    rw [if_neg (by simp [h])]
  · intro fm books eo h
    unfold olResolveWith
    rw [if_neg (by simp [h])]
  · intro fm books en h
    unfold nytResolveWith
    rw [if_neg (by simp [h])]
  · intro st eg ht ha hr
    unfold googleStep
    rw [ht]
    have : googleResolveWith findFuzzyPair st.merged_books eg = none := by
      unfold googleResolveWith
      rw [if_neg (by simp [ha]), hr]
    simp only [Bool.false_eq_true, if_false, this, ha]
  · intro st eo ht ha hr
    unfold olStep
    rw [ht]
    have : olResolveWith findFuzzyPair st.merged_books eo = none := by
      unfold olResolveWith
      rw [if_neg (by simp [ha]), hr]
    simp only [Bool.false_eq_true, if_false, this, ha]
  · intro st en ht ha hr
    unfold nytStep
    rw [ht]
    have : nytResolveWith findFuzzyPair st.merged_books en = none := by
      unfold nytResolveWith
      rw [if_neg (by simp [ha]), hr]
    simp only [Bool.false_eq_true, if_false, this, ha]

/-- C10 witness: a Google record with title x and no author, against a
state already holding a canonical record with the identical title and
empty author: resolution ignores every fuzzy finder, and the step stores
a fresh base record under the same generated id. -/
theorem empty_author_skips_fuzzy_witness :
    (googleResolveWith findFuzzyPair
      [("x_".toList, create_base_book_entry "x".toList [] none)]
      { title := "x".toList } =
      googleIsbnResolve
        [("x_".toList, create_base_book_entry "x".toList [] none)]
        { title := "x".toList }) ∧
    ((googleStep
      { merged_books :=
          [("x_".toList, create_base_book_entry "x".toList [] none)] }
      { title := "x".toList }).merged_books =
      dictSet [("x_".toList, create_base_book_entry "x".toList [] none)]
        (generate_book_id "x".toList [])
        (applyGoogleData (create_base_book_entry "x".toList [] none)
          { title := "x".toList })) :=
  ⟨(empty_author_skips_fuzzy.1) findFuzzyPair _ _ rfl,
   (empty_author_skips_fuzzy.2.2.2.1)
     { merged_books :=
        [("x_".toList, create_base_book_entry "x".toList [] none)] }
     { title := "x".toList } (by decide) rfl (by decide)⟩

/-! ## C1 -/

/-- C1: for every Google Books, Open Library or NYT record, when
identifier resolution succeeds (some carried identifier is already present
in a canonical record's isbn_all), the full resolution equals the
identifier-only resolution for every possible fuzzy finder — fuzzy
matching is never consulted, however dissimilar the titles and authors —
and the record found by an identifier lookup is the first canonical entry
in iteration order whose isbn_all holds the identifier. -/
theorem isbn_precedence_over_fuzzy :
    (∀ (fm : FuzzyFinder) (books : List (List Char × Book)) (eg : GoogleBook),
      keyFalsy (googleIsbnResolve books eg) = false →
      googleResolveWith fm books eg = googleIsbnResolve books eg) ∧
    (∀ (fm : FuzzyFinder) (books : List (List Char × Book)) (eo : OLBook),
      keyFalsy (olIsbnResolve books eo.isbn) = false →
      olResolveWith fm books eo = olIsbnResolve books eo.isbn) ∧
    (∀ (fm : FuzzyFinder) (books : List (List Char × Book)) (en : NytBook),
      keyFalsy (nytIsbnResolve books en) = false →
      nytResolveWith fm books en = nytIsbnResolve books en) ∧
    (∀ (books : List (List Char × Book)) (isbn k : List Char) (b : Book),
      findIsbnPair books isbn = some (k, b) →
      isbn ∈ b.isbn_all ∧
      ∃ l1 l2, books = l1 ++ (k, b) :: l2 ∧
        ∀ p ∈ l1, isbn ∉ p.2.isbn_all) := by
  refine ⟨?_, ?_, ?_, ?_⟩
  · intro fm books eg h
    unfold googleResolveWith
    rw [if_neg (by simp [h])]
  · intro fm books eo h
    unfold olResolveWith
    rw [if_neg (by simp [h])]
  · intro fm books en h
    unfold nytResolveWith
    rw [if_neg (by simp [h])]
  · intro books isbn k b h
    unfold findIsbnPair at h
    rw [if_neg ?hg] at h
    case hg =>
      intro hcontra
      rw [if_pos hcontra] at h
      exact Option.noConfusion h
    obtain ⟨hp, l1, l2, rfl, hl1⟩ := find?_first _ books (k, b) h
    refine ⟨by simpa using hp, l1, l2, rfl, ?_⟩
    intro p hpmem hmem
    have := hl1 p hpmem
    simp [hmem] at this

/-- C1 witness: a state holding two canonical records, the second of which
carries ISBN 1111111111111; a Google record, an OL record and an NYT
record with utterly different titles and authors but that ISBN all resolve
to that record for an arbitrary fuzzy finder, and the identifier lookup
returns the first matching entry together with its position. -/
theorem isbn_precedence_over_fuzzy_witness :
    (googleResolveWith (fun _ _ _ => none)
      [("a_b".toList, create_base_book_entry "a".toList "b".toList none),
       ("k_w".toList, add_isbn_to_book
          (create_base_book_entry "Great Novel Special Edition".toList
            "John Smith".toList none)
          (some "1111111111111".toList))]
      { title := "The Great Novel".toList, authors := ["J. Smith".toList],
        isbn_13 := some "1111111111111".toList } =
      googleIsbnResolve
        [("a_b".toList, create_base_book_entry "a".toList "b".toList none),
         ("k_w".toList, add_isbn_to_book
            (create_base_book_entry "Great Novel Special Edition".toList
              "John Smith".toList none)
            (some "1111111111111".toList))]
        { title := "The Great Novel".toList, authors := ["J. Smith".toList],
          isbn_13 := some "1111111111111".toList }) ∧
    (olResolveWith (fun _ _ _ => none)
      [("k_w".toList, add_isbn_to_book
          (create_base_book_entry "t".toList "u".toList none)
          (some "1111111111111".toList))]
      { title := "zzz".toList, authors := ["qqq".toList],
        isbn := ["1111111111111".toList] } =
      olIsbnResolve
        [("k_w".toList, add_isbn_to_book
            (create_base_book_entry "t".toList "u".toList none)
            (some "1111111111111".toList))]
        ["1111111111111".toList]) ∧
    (nytResolveWith (fun _ _ _ => none)
      [("k_w".toList, add_isbn_to_book
          (create_base_book_entry "t".toList "u".toList none)
          (some "1111111111111".toList))]
      { title := "zzz".toList, author := "qqq".toList,
        primary_isbn13 := some "1111111111111".toList } =
      nytIsbnResolve
        [("k_w".toList, add_isbn_to_book
            (create_base_book_entry "t".toList "u".toList none)
            (some "1111111111111".toList))]
        { title := "zzz".toList, author := "qqq".toList,
          primary_isbn13 := some "1111111111111".toList }) ∧
    ("1111111111111".toList ∈ (add_isbn_to_book
        (create_base_book_entry "t".toList "u".toList none)
        (some "1111111111111".toList)).isbn_all ∧
      ∃ l1 l2,
        [("a_b".toList, create_base_book_entry "a".toList "b".toList none),
         ("k_w".toList, add_isbn_to_book
            (create_base_book_entry "t".toList "u".toList none)
            (some "1111111111111".toList))] =
          l1 ++ ("k_w".toList, add_isbn_to_book
            (create_base_book_entry "t".toList "u".toList none)
            (some "1111111111111".toList)) :: l2 ∧
        ∀ p ∈ l1, "1111111111111".toList ∉ p.2.isbn_all) :=
  ⟨isbn_precedence_over_fuzzy.1 (fun _ _ _ => none) _ _ (by decide),
   isbn_precedence_over_fuzzy.2.1 (fun _ _ _ => none) _ _ (by decide),
   isbn_precedence_over_fuzzy.2.2.1 (fun _ _ _ => none) _ _ (by decide),
   isbn_precedence_over_fuzzy.2.2.2 _ "1111111111111".toList _ _ (by decide)⟩

/-- C2 witness: the step-level overwrite lemma applied to a concrete state
holding one canonical record with ISBN 1111111111111 and an incoming OL
record with that ISBN and ratings_count 250. -/
theorem openlibrary_reception_lww_witness :
    dictFind (olStep
      { merged_books := [("k0".toList, add_isbn_to_book
          (create_base_book_entry "x".toList "y".toList none)
          (some "1111111111111".toList))] }
      { title := "zz".toList, authors := ["qq".toList],
        isbn := ["1111111111111".toList],
        ratings_count := some 250 }).merged_books "k0".toList =
      some (applyOpenlibraryData
        (add_isbn_to_book (create_base_book_entry "x".toList "y".toList none)
          (some "1111111111111".toList))
        { title := "zz".toList, authors := ["qq".toList],
          isbn := ["1111111111111".toList], ratings_count := some 250 }) :=
  (openlibrary_reception_last_write_wins).2.1 _ _ _ _ (by decide) (by decide)
    (by decide)

/-! ## Normalizer lemmas (C5) -/

theorem char_toNat_ofNat_small : ∀ n, n < 123 → (Char.ofNat n).toNat = n := by
  decide

theorem pyLower_idem (c : Char) : pyLower (pyLower c) = pyLower c := by
  unfold pyLower
  by_cases h : 65 ≤ c.toNat ∧ c.toNat ≤ 90
  · rw [if_pos h, if_neg]
    rw [char_toNat_ofNat_small (c.toNat + 32) (by omega)]
    omega
  · rw [if_neg h, if_neg h]

theorem pyLower_space : pyLower ' ' = ' ' := by decide

/-- A char of the split words comes from the input or the accumulator. -/
theorem wordsAux_subset :
    ∀ (l cur w : List Char), w ∈ wordsAux l cur →
      ∀ c ∈ w, c ∈ l ∨ c ∈ cur := by
  intro l
  induction l with
  | nil =>
    intro cur w hw c hc
    unfold wordsAux at hw
    split at hw
    · simp at hw
    · simp only [List.mem_singleton] at hw
      subst hw
      exact Or.inr (List.mem_reverse.mp hc)
  | cons a rest ih =>
    intro cur w hw c hc
    unfold wordsAux at hw
    split at hw
    · split at hw
      · rcases ih [] w hw c hc with h | h
        · exact Or.inl (List.mem_cons_of_mem a h)
        · simp at h
      · rcases List.mem_cons.mp hw with rfl | hw'
        · exact Or.inr (List.mem_reverse.mp hc)
        · rcases ih [] w hw' c hc with h | h
          · exact Or.inl (List.mem_cons_of_mem a h)
          · simp at h
    · rcases ih (a :: cur) w hw c hc with h | h
      · exact Or.inl (List.mem_cons_of_mem a h)
      · rcases List.mem_cons.mp h with rfl | h'
        · exact Or.inl (by simp)
        · exact Or.inr h'

/-- The split words are nonempty and free of whitespace. -/
theorem wordsAux_sound :
    ∀ (l cur : List Char), (∀ c ∈ cur, pyIsSpace c = false) →
      ∀ w ∈ wordsAux l cur, w ≠ [] ∧ ∀ c ∈ w, pyIsSpace c = false := by
  intro l
  induction l with
  | nil =>
    intro cur hcur w hw
    unfold wordsAux at hw
    split at hw
    · simp at hw
    · simp only [List.mem_singleton] at hw
      subst hw
      next hne =>
      refine ⟨?_, ?_⟩
      · simp only [ne_eq, List.reverse_eq_nil_iff]
        intro hnil
        rw [hnil] at hne
        simp at hne
      · intro c hc
        exact hcur c (List.mem_reverse.mp hc)
  | cons a rest ih =>
    intro cur hcur w hw
    unfold wordsAux at hw
    split at hw
    · split at hw
      · exact ih [] (by simp) w hw
      · rename_i hspace hne
        rcases List.mem_cons.mp hw with rfl | hw'
        · refine ⟨?_, ?_⟩
          · simp only [ne_eq, List.reverse_eq_nil_iff]
            intro hnil
            rw [hnil] at hne
            simp at hne
          · intro c hc
            exact hcur c (List.mem_reverse.mp hc)
        · exact ih [] (by simp) w hw'
    · next hsp =>
      refine ih (a :: cur) ?_ w hw
      intro c hc
      rcases List.mem_cons.mp hc with rfl | hc'
      · simpa using hsp
      · exact hcur c hc'

/-- Scanning a whitespace-free block prepends it (reversed) to the
accumulator. -/
theorem wordsAux_append_nonspace :
    ∀ (w t cur : List Char), (∀ c ∈ w, pyIsSpace c = false) →
      wordsAux (w ++ t) cur = wordsAux t (w.reverse ++ cur) := by
  intro w
  induction w with
  | nil => intro t cur h; simp
  | cons c w' ih =>
    intro t cur h
    have hc : pyIsSpace c = false := h c (List.mem_cons_self c w')
    rw [List.cons_append]
    show (if pyIsSpace c then _ else wordsAux (w' ++ t) (c :: cur)) = _
    rw [hc]
    simp only [Bool.false_eq_true, if_false]
    rw [ih t (c :: cur) (fun x hx => h x (List.mem_cons_of_mem c hx))]
    simp

/-- Splitting the space-join of good words recovers exactly the words. -/
theorem pyWords_joinWords :
    ∀ ws : List (List Char),
      (∀ w ∈ ws, w ≠ [] ∧ ∀ c ∈ w, pyIsSpace c = false) →
      pyWords (joinWords ws) = ws := by
  intro ws
  induction ws with
  | nil => intro h; rfl
  | cons w ws' ih =>
    intro h
    obtain ⟨hne, hsp⟩ := h w (List.mem_cons_self w ws')
    cases ws' with
    | nil =>
      show wordsAux (joinWords [w]) [] = [w]
      unfold joinWords
      rw [show w = w ++ [] from (List.append_nil w).symm,
        wordsAux_append_nonspace w [] [] (by simpa using hsp)]
      unfold wordsAux
      rw [if_neg (by simpa [List.isEmpty_iff] using hne)]
      simp
    | cons x ws'' =>
      show wordsAux (joinWords (w :: x :: ws'')) [] = w :: x :: ws''
      unfold joinWords
      rw [wordsAux_append_nonspace w _ [] hsp]
      show (if pyIsSpace ' ' then _ else _) = _
      rw [show pyIsSpace ' ' = true from by decide]
      simp only [if_true]
      rw [if_neg (by simpa [List.isEmpty_iff] using hne)]
      have := ih (fun v hv => h v (List.mem_cons_of_mem w hv))
      unfold pyWords at this
      rw [this]
      simp

/-- Every character of a space-join is a space or a word character. -/
theorem joinWords_mem :
    ∀ (ws : List (List Char)) (c : Char), c ∈ joinWords ws →
      c = ' ' ∨ ∃ w ∈ ws, c ∈ w := by
  intro ws
  induction ws with
  | nil => intro c hc; simp [joinWords] at hc
  | cons w ws' ih =>
    intro c hc
    cases ws' with
    | nil =>
      right
      exact ⟨w, List.mem_cons_self w [], by simpa [joinWords] using hc⟩
    | cons x ws'' =>
      unfold joinWords at hc
      rcases List.mem_append.mp hc with h | h
      · exact Or.inr ⟨w, List.mem_cons_self w _, h⟩
      · rcases List.mem_cons.mp h with rfl | h'
        · exact Or.inl rfl
        · rcases ih c h' with h'' | ⟨v, hv, hcv⟩
          · exact Or.inl h''
          · exact Or.inr ⟨v, List.mem_cons_of_mem w hv, hcv⟩

/-- The reverse of a nonempty good join starts with a non-space char. -/
theorem joinWords_reverse_cons :
    ∀ (ws : List (List Char)) (w0 : List Char) (tl : List (List Char)),
      ws = w0 :: tl →
      (∀ w ∈ ws, w ≠ [] ∧ ∀ c ∈ w, pyIsSpace c = false) →
      ∃ d t', (joinWords ws).reverse = d :: t' ∧ pyIsSpace d = false := by
  intro ws
  induction ws with
  | nil => intro w0 tl h; exact absurd h (by simp)
  | cons w ws' ih =>
    intro w0 tl _ h
    obtain ⟨hne, hsp⟩ := h w (List.mem_cons_self w ws')
    cases ws' with
    | nil =>
      obtain ⟨d, t', hd⟩ : ∃ d t', w.reverse = d :: t' := by
        cases hw : w.reverse with
        | nil => exact absurd (List.reverse_eq_nil_iff.mp hw) hne
        | cons d t' => exact ⟨d, t', rfl⟩
      refine ⟨d, t', by simpa [joinWords] using hd, ?_⟩
      refine hsp d ?_
      rw [← List.mem_reverse, hd]
      exact List.mem_cons_self d t'
    | cons x ws'' =>
      obtain ⟨d, t', hd, hdsp⟩ := ih x ws'' rfl
        (fun v hv => h v (List.mem_cons_of_mem w hv))
      refine ⟨d, t' ++ ' ' :: w.reverse, ?_, hdsp⟩
      show (joinWords (w :: x :: ws'')).reverse = _
      unfold joinWords
      rw [List.reverse_append, List.reverse_cons]
      show (joinWords (x :: ws'')).reverse ++ [' '] ++ w.reverse = _
      rw [hd]
      simp

/-- A map that fixes every element of a list fixes the list. -/
theorem map_id_of_fixed {f : Char → Char} :
    ∀ l : List Char, (∀ c ∈ l, f c = c) → l.map f = l := by
  intro l
  induction l with
  | nil => intro h; rfl
  | cons c rest ih =>
    intro h
    rw [List.map_cons, h c (List.mem_cons_self c rest),
      ih (fun x hx => h x (List.mem_cons_of_mem c hx))]

/-- The join of a nonempty word list starts with its first word. -/
theorem joinWords_cons_eq (w : List Char) (tl : List (List Char)) :
    ∃ rest, joinWords (w :: tl) = w ++ rest := by
  cases tl with
  | nil => exact ⟨[], by simp [joinWords]⟩
  | cons x tl' => exact ⟨' ' :: joinWords (x :: tl'), rfl⟩

/-- Stripping whitespace fixes the join of good words. -/
theorem pyStrip_joinWords (ws : List (List Char))
    (h : ∀ w ∈ ws, w ≠ [] ∧ ∀ c ∈ w, pyIsSpace c = false) :
    pyStrip (joinWords ws) = joinWords ws := by
  cases ws with
  | nil => rfl
  | cons w tl =>
    obtain ⟨hne, hsp⟩ := h w (List.mem_cons_self w tl)
    have hfront : (joinWords (w :: tl)).dropWhile pyIsSpace
        = joinWords (w :: tl) := by
      obtain ⟨rest, hrest⟩ := joinWords_cons_eq w tl
      obtain ⟨c, w', rfl⟩ : ∃ c w', w = c :: w' := by
        cases w with
        | nil => exact absurd rfl hne
        | cons c w' => exact ⟨c, w', rfl⟩
      rw [hrest, List.cons_append, List.dropWhile_cons_of_neg]
      simp [hsp c (List.mem_cons_self c w')]
    obtain ⟨d, t', hd, hdsp⟩ := joinWords_reverse_cons (w :: tl) w tl rfl h
    unfold pyStrip
    rw [hfront, hd, List.dropWhile_cons_of_neg (by simp [hdsp]), ← hd,
      List.reverse_reverse]

/-- Structure of a normalized nonempty string: it is the space-join of
nonempty whitespace-free words, and each of its characters is a fixed
point of lowering and is alphanumeric or whitespace. -/
theorem normalize_text_structure (t : List Char) (h0 : t.isEmpty = false) :
    ∃ ws : List (List Char),
      (∀ w ∈ ws, w ≠ [] ∧ ∀ c ∈ w, pyIsSpace c = false) ∧
      normalize_text t = joinWords ws ∧
      pyWords (normalize_text t) = ws ∧
      (∀ c ∈ normalize_text t,
        pyLower c = c ∧ (pyIsAlnum c || pyIsSpace c) = true) := by
  have hnt : normalize_text t =
      joinWords (pyWords ((stripArticle "an ".toList (stripArticle "a ".toList
        (stripArticle "the ".toList
          (pyStrip (t.map pyLower))))).filter
            (fun c => pyIsAlnum c || pyIsSpace c))) := by
    unfold normalize_text
    rw [h0]
    simp
  set t3 := (stripArticle "an ".toList (stripArticle "a ".toList
    (stripArticle "the ".toList (pyStrip (t.map pyLower))))).filter
      (fun c => pyIsAlnum c || pyIsSpace c) with ht3
  have hgood : ∀ w ∈ pyWords t3, w ≠ [] ∧ ∀ c ∈ w, pyIsSpace c = false :=
    wordsAux_sound t3 [] (by simp)
  refine ⟨pyWords t3, hgood, hnt, ?_, ?_⟩
  · rw [hnt]
    exact pyWords_joinWords (pyWords t3) hgood
  · intro c hc
    rw [hnt] at hc
    rcases joinWords_mem _ c hc with rfl | ⟨w, hw, hcw⟩
    · exact ⟨by decide, by decide⟩
    · have hct3 : c ∈ t3 := by
        rcases wordsAux_subset t3 [] w hw c hcw with h | h
        · exact h
        · simp at h
      have hkeep : (pyIsAlnum c || pyIsSpace c) = true :=
        (List.mem_filter.mp hct3).2
      have hct2 : c ∈ stripArticle "an ".toList (stripArticle "a ".toList
          (stripArticle "the ".toList (pyStrip (t.map pyLower)))) :=
        (List.mem_filter.mp hct3).1
      have hmem_strip : ∀ (a u : List Char), c ∈ stripArticle a u → c ∈ u := by
        intro a u hcu
        unfold stripArticle at hcu
        split at hcu
        · exact List.mem_of_mem_drop hcu
        · exact hcu
      have hct1 : c ∈ pyStrip (t.map pyLower) :=
        hmem_strip _ _ (hmem_strip _ _ (hmem_strip _ _ hct2))
      have hmap : c ∈ t.map pyLower := by
        unfold pyStrip at hct1
        rw [List.mem_reverse] at hct1
        have h1 := (List.dropWhile_sublist pyIsSpace).subset hct1
        rw [List.mem_reverse] at h1
        exact (List.dropWhile_sublist pyIsSpace).subset h1
      obtain ⟨c0, _, rfl⟩ := List.mem_map.mp hmap
      exact ⟨pyLower_idem c0, hkeep⟩

/-! ## C5 -/

/-- C5 counterexample: normalize_text is not idempotent.  A single pass
over "the the book" strips one leading article and yields "the book";
a second pass strips another, yielding "book". -/
theorem normalize_not_idempotent_cx :
    normalize_text "the the book".toList = "the book".toList ∧
    normalize_text (normalize_text "the the book".toList) = "book".toList ∧
    normalize_text (normalize_text "the the book".toList) ≠
      normalize_text "the the book".toList := by decide

/-- C5 amended: normalize_text is idempotent on exactly those inputs whose
normalized form does not itself start with a leading article "the ", "a "
or "an " (one pass can leave such a prefix behind — or even create one by
deleting special characters — and the next pass strips it). -/
theorem normalize_idempotent_no_article (t : List Char)
    (h : startsWithArticle (normalize_text t) = false) :
    normalize_text (normalize_text t) = normalize_text t := by
  by_cases h0 : t.isEmpty = true
  · have hnil : normalize_text t = [] := by
      unfold normalize_text
      rw [h0]
      simp
    rw [hnil]
    decide
  · rw [Bool.not_eq_true] at h0
    obtain ⟨ws, hgood, hjoin, hwords, hchars⟩ := normalize_text_structure t h0
    set y := normalize_text t with hy
    by_cases hyemp : y.isEmpty = true
    · conv_lhs => unfold normalize_text
      rw [if_pos hyemp]
      exact (List.isEmpty_iff.mp hyemp).symm
    · rw [Bool.not_eq_true] at hyemp
      have h1 : y.map pyLower = y :=
        map_id_of_fixed _ (fun c hc => (hchars c hc).1)
      have h2 : pyStrip y = y := by
        rw [hjoin]
        exact pyStrip_joinWords ws hgood
      have h3 : ("the ".toList).isPrefixOf y = false ∧
          ("a ".toList).isPrefixOf y = false ∧
          ("an ".toList).isPrefixOf y = false := by
        unfold startsWithArticle at h
        simp only [Bool.or_eq_false_iff] at h
        exact ⟨h.1.1, h.1.2, h.2⟩
      have h4 : y.filter (fun c => pyIsAlnum c || pyIsSpace c) = y :=
        List.filter_eq_self.mpr (fun c hc => (hchars c hc).2)
      have hfix : ∀ (a u : List Char), a.isPrefixOf u = false →
          stripArticle a u = u := by
        intro a u hau
        unfold stripArticle
        rw [if_neg (by simp [hau])]
      conv_lhs => unfold normalize_text
      rw [if_neg (by simp [hyemp])]
      dsimp only
      rw [h1, h2, hfix _ _ h3.1, hfix _ _ h3.2.1, hfix _ _ h3.2.2, h4,
        hwords, ← hjoin]

/-- C5 witness: a concrete string whose normalization (great gatsby) does
not start with an article, on which the amended idempotence theorem
applies. -/
theorem normalize_idempotent_no_article_witness :
    startsWithArticle (normalize_text "  The Great  Gatsby! ".toList) = false ∧
    normalize_text (normalize_text "  The Great  Gatsby! ".toList) =
      normalize_text "  The Great  Gatsby! ".toList :=
  ⟨by decide,
   normalize_idempotent_no_article "  The Great  Gatsby! ".toList (by decide)⟩

/-! ## Similarity scorer lemmas (C6) -/

theorem pairwise_lt_b2jIdx (b : List Char) (c : Char) :
    (b2jIdx b c).Pairwise (· < ·) := by
  unfold b2jIdx
  split
  · exact List.Pairwise.nil
  · exact (List.pairwise_lt_range b.length).filter _

theorem takeWhile_eq_filter_of_sorted (m : Nat) :
    ∀ l : List Nat, l.Pairwise (· < ·) →
      l.takeWhile (fun j => decide (j < m)) = l.filter (fun j => decide (j < m)) := by
  intro l
  induction l with
  | nil => intro h; rfl
  | cons x xs ih =>
    intro h
    by_cases hx : x < m
    · rw [List.takeWhile_cons_of_pos (by simpa using hx),
        List.filter_cons_of_pos (by simpa using hx),
        ih (List.Pairwise.sublist (List.sublist_cons_self x xs) h)]
    · rw [List.takeWhile_cons_of_neg (by simpa using hx),
        List.filter_cons_of_neg (by simpa using hx)]
      have : ∀ j ∈ xs, ¬(j < m) := by
        intro j hj
        have := (List.pairwise_cons.mp h).1 j hj
        omega
      rw [List.filter_eq_nil_iff.mpr]
      intro j hj
      simpa using this j hj

theorem mem_rowJs (a b : List Char) (blo bhi i j : Nat) :
    j ∈ rowJs b (chAt a i) blo bhi ↔
      (isPopular b (chAt a i) = false ∧ j < b.length ∧ chAt b j = chAt a i ∧
        blo ≤ j ∧ j < bhi) := by
  unfold rowJs
  rw [takeWhile_eq_filter_of_sorted bhi _ (pairwise_lt_b2jIdx b (chAt a i))]
  simp only [List.mem_filter, decide_eq_true_eq]
  unfold b2jIdx
  constructor
  · rintro ⟨⟨hmem, hlt⟩, hge⟩
    split at hmem
    · simp at hmem
    · next hpop =>
      simp only [List.mem_filter, List.mem_range, beq_iff_eq] at hmem
      exact ⟨by simpa using hpop, hmem.1, hmem.2, hge, hlt⟩
  · rintro ⟨hpop, hlen, hch, hge, hlt⟩
    refine ⟨⟨?_, hlt⟩, hge⟩
    rw [if_neg (by simp [hpop])]
    simp only [List.mem_filter, List.mem_range, beq_iff_eq]
    exact ⟨hlen, hch⟩

theorem pairwise_lt_rowJs (b : List Char) (c : Char) (blo bhi : Nat) :
    (rowJs b c blo bhi).Pairwise (· < ·) := by
  unfold rowJs
  exact ((pairwise_lt_b2jIdx b c).sublist (List.takeWhile_sublist _)).filter _

theorem chainValid_iff (a b : List Char) (alo blo bhi i j : Nat) :
    chainValid a b alo blo bhi i j = true ↔
      (alo ≤ i ∧ blo ≤ j ∧ j < bhi ∧ j < b.length ∧ chAt a i = chAt b j ∧
        isPopular b (chAt b j) = false) := by
  unfold chainValid
  simp

theorem mem_rowJs_iff_chainValid (a b : List Char) (alo blo bhi i j : Nat)
    (hi : alo ≤ i) :
    j ∈ rowJs b (chAt a i) blo bhi ↔
      chainValid a b alo blo bhi i j = true := by
  rw [mem_rowJs, chainValid_iff]
  constructor
  · rintro ⟨hpop, hlen, hch, hge, hlt⟩
    exact ⟨hi, hge, hlt, hlen, hch.symm, by rwa [hch]⟩
  · rintro ⟨-, hge, hlt, hlen, hch, hpop⟩
    exact ⟨by rwa [← hch] at hpop, hlen, hch.symm, hge, hlt⟩

/-- chainLen is zero on rows before alo. -/
theorem chainLen_eq_zero_of_lt_alo (a b : List Char) (alo blo bhi : Nat)
    (i j : Nat) (h : i < alo) : chainLen a b alo blo bhi i j = 0 := by
  cases i with
  | zero =>
    unfold chainLen
    rw [if_neg]
    intro hc
    exact absurd ((chainValid_iff a b alo blo bhi 0 j).mp hc).1 (by omega)
  | succ i' =>
    unfold chainLen
    rw [if_neg]
    intro hc
    exact absurd ((chainValid_iff a b alo blo bhi (i' + 1) j).mp hc).1 (by omega)

/-- Bounds on a nonzero chain value. -/
theorem chainLen_bounds (a b : List Char) (alo blo bhi : Nat) :
    ∀ i j, chainLen a b alo blo bhi i j = 0 ∨
      (alo ≤ i ∧ blo ≤ j ∧ j < bhi ∧
        chainLen a b alo blo bhi i j + alo ≤ i + 1 ∧
        chainLen a b alo blo bhi i j + blo ≤ j + 1) := by
  intro i
  induction i with
  | zero =>
    intro j
    unfold chainLen
    by_cases h : chainValid a b alo blo bhi 0 j = true
    · obtain ⟨h1, h2, h3, -⟩ := (chainValid_iff a b alo blo bhi 0 j).mp h
      rw [if_pos h]
      right
      omega
    · rw [if_neg h]
      exact Or.inl rfl
  | succ i' ih =>
    intro j
    unfold chainLen
    by_cases h : chainValid a b alo blo bhi (i' + 1) j = true
    · obtain ⟨h1, h2, h3, -⟩ := (chainValid_iff a b alo blo bhi (i' + 1) j).mp h
      rw [if_pos h]
      by_cases hj : j = 0
      · rw [if_pos hj]
        right
        omega
      · rw [if_neg hj]
        rcases ih (j - 1) with h0 | ⟨hb1, hb2, hb3, hb4, hb5⟩
        · rw [h0]
          right
          omega
        · right
          omega
    · rw [if_neg h]
      exact Or.inl rfl

theorem chainLen_eq_zero_of_invalid (a b : List Char) (alo blo bhi i j : Nat)
    (h : chainValid a b alo blo bhi i j = false) :
    chainLen a b alo blo bhi i j = 0 := by
  cases i <;>
  · unfold chainLen
    rw [if_neg (by simp [h])]

theorem chainLen_first (a b : List Char) (alo blo bhi j : Nat)
    (h : chainValid a b alo blo bhi alo j = true) :
    chainLen a b alo blo bhi alo j = 1 := by
  cases halo : alo with
  | zero =>
    rw [halo] at h
    unfold chainLen
    rw [if_pos h]
  | succ a' =>
    rw [halo] at h
    unfold chainLen
    rw [if_pos h]
    by_cases hj : j = 0
    · rw [if_pos hj]
    · rw [if_neg hj,
        chainLen_eq_zero_of_lt_alo a b (a' + 1) blo bhi a' (j - 1) (by omega)]

/-- The first component of the inner fold: scanned columns get the fresh
row value, everything else keeps the accumulator value. -/
theorem foldl_dpRowStep_fst (j2len : Nat → Nat) (i : Nat) :
    ∀ (js : List Nat) (acc : (Nat → Nat) × DpBest) (j' : Nat),
      (js.foldl (dpRowStep j2len i) acc).1 j' =
        if j' ∈ js then (if j' = 0 then 0 else j2len (j' - 1)) + 1
        else acc.1 j' := by
  intro js
  induction js with
  | nil => intro acc j'; simp
  | cons j js' ih =>
    intro acc j'
    rw [List.foldl_cons, ih]
    by_cases hmem : j' ∈ js'
    · rw [if_pos hmem, if_pos (List.mem_cons_of_mem j hmem)]
    · rw [if_neg hmem]
      simp only [dpRowStep]
      by_cases hj : j' = j
      · subst hj
        rw [if_pos rfl, if_pos (List.mem_cons_self j' js')]
      · rw [if_neg hj, if_neg (by simp [hj, hmem])]

/-- The best block never leaves the region during the inner fold. -/
theorem foldl_dpRowStep_inRegion (a b : List Char) (alo blo ahi bhi i : Nat)
    (j2len : Nat → Nat) (hi : i < ahi) :
    ∀ (js : List Nat),
      (∀ j ∈ js, (if j = 0 then 0 else j2len (j - 1)) + 1 =
        chainLen a b alo blo bhi i j) →
      ∀ acc : (Nat → Nat) × DpBest, dpInRegion alo ahi blo bhi acc.2 →
      dpInRegion alo ahi blo bhi (js.foldl (dpRowStep j2len i) acc).2 := by
  intro js
  induction js with
  | nil => intro _ acc hacc; exact hacc
  | cons j js' ih =>
    intro hval acc hacc
    rw [List.foldl_cons]
    refine ih (fun x hx => hval x (List.mem_cons_of_mem j hx)) _ ?_
    show dpInRegion alo ahi blo bhi
      (if acc.2.bestsize < (if j = 0 then 0 else j2len (j - 1)) + 1 then _
       else acc.2)
    by_cases hlt : acc.2.bestsize < (if j = 0 then 0 else j2len (j - 1)) + 1
    · rw [if_pos hlt]
      have hk := hval j (List.mem_cons_self j js')
      rcases chainLen_bounds a b alo blo bhi i j with h0 | ⟨h1, h2, h3, h4, h5⟩
      · omega
      · unfold dpInRegion
        simp only
        omega
    · rw [if_neg hlt]
      exact hacc

/-- The row value computed from the previous row map is the chain value. -/
theorem rowval_eq_chainLen (a b : List Char) (alo blo bhi : Nat) (n : Nat)
    (st1 : Nat → Nat)
    (hst : ∀ j', st1 j' =
      if n = 0 then 0 else chainLen a b alo blo bhi (alo + n - 1) j') :
    ∀ j, chainValid a b alo blo bhi (alo + n) j = true →
      (if j = 0 then 0 else st1 (j - 1)) + 1 =
        chainLen a b alo blo bhi (alo + n) j := by
  intro j hvalid
  cases n with
  | zero =>
    simp only [Nat.add_zero] at hvalid ⊢
    rw [chainLen_first a b alo blo bhi j hvalid]
    by_cases hj : j = 0
    · rw [if_pos hj]
    · rw [if_neg hj, hst (j - 1), if_pos rfl]
  | succ n' =>
    have hrw : alo + (n' + 1) = (alo + n') + 1 := by omega
    rw [hrw] at hvalid ⊢
    show (if j = 0 then 0 else st1 (j - 1)) + 1 =
      chainLen a b alo blo bhi ((alo + n') + 1) j
    unfold chainLen
    rw [if_pos hvalid]
    by_cases hj : j = 0
    · rw [if_pos hj, if_pos hj]
    · rw [if_neg hj, if_neg hj, hst (j - 1), if_neg (by omega),
        show alo + (n' + 1) - 1 = alo + n' from by omega]

theorem range'_concat_one (s n : Nat) :
    List.range' s (n + 1) = List.range' s n ++ [s + n] := by
  simpa using @List.range'_concat 1 s n

/-- Characterization of the row loop: after n rows the map holds the last
row's chain values and the best block lies inside the region. -/
theorem dpLoopAux (a b : List Char) (alo blo ahi bhi : Nat)
    (hb : blo ≤ bhi) :
    ∀ n, alo + n ≤ ahi →
      (∀ j', ((List.range' alo n).foldl (dpRow a b blo bhi)
          (fun _ => 0, ⟨alo, blo, 0⟩)).1 j' =
        if n = 0 then 0 else chainLen a b alo blo bhi (alo + n - 1) j') ∧
      dpInRegion alo ahi blo bhi
        ((List.range' alo n).foldl (dpRow a b blo bhi)
          (fun _ => 0, ⟨alo, blo, 0⟩)).2 := by
  intro n
  induction n with
  | zero =>
    intro hn
    refine ⟨fun j' => by simp, ?_⟩
    exact ⟨Nat.le_refl alo, by simpa using hn, Nat.le_refl blo, by simpa using hb⟩
  | succ n' ih =>
    intro hn
    obtain ⟨ihfst, ihsnd⟩ := ih (by omega)
    rw [range'_concat_one, List.foldl_append, List.foldl_cons, List.foldl_nil]
    set st := (List.range' alo n').foldl (dpRow a b blo bhi)
      (fun _ => 0, ⟨alo, blo, 0⟩) with hst
    have hval : ∀ j ∈ rowJs b (chAt a (alo + n')) blo bhi,
        (if j = 0 then 0 else st.1 (j - 1)) + 1 =
          chainLen a b alo blo bhi (alo + n') j := by
      intro j hj
      exact rowval_eq_chainLen a b alo blo bhi n' st.1 ihfst j
        ((mem_rowJs_iff_chainValid a b alo blo bhi (alo + n') j (by omega)).mp hj)
    constructor
    · intro j'
      show (dpRow a b blo bhi st (alo + n')).1 j' = _
      unfold dpRow
      rw [foldl_dpRowStep_fst,
        if_neg (show ¬(n' + 1 = 0) from by omega),
        show alo + (n' + 1) - 1 = alo + n' from by omega]
      by_cases hmem : j' ∈ rowJs b (chAt a (alo + n')) blo bhi
      · rw [if_pos hmem]
        exact hval j' hmem
      · rw [if_neg hmem]
        have hnv : chainValid a b alo blo bhi (alo + n') j' = false := by
          by_contra hcc
          rw [Bool.not_eq_false] at hcc
          exact hmem ((mem_rowJs_iff_chainValid a b alo blo bhi
            (alo + n') j' (by omega)).mpr hcc)
        exact (chainLen_eq_zero_of_invalid a b alo blo bhi _ _ hnv).symm
    · show dpInRegion alo ahi blo bhi (dpRow a b blo bhi st (alo + n')).2
      unfold dpRow
      exact foldl_dpRowStep_inRegion a b alo blo ahi bhi (alo + n') st.1
        (by omega) _ hval (fun _ => 0, st.2) ihsnd

/-- The dynamic-programming best block lies inside the region. -/
theorem dpLoop_inRegion (a b : List Char) (alo blo ahi bhi : Nat)
    (ha : alo ≤ ahi) (hb : blo ≤ bhi) :
    dpInRegion alo ahi blo bhi (dpLoop a b alo ahi blo bhi) := by
  unfold dpLoop
  exact (dpLoopAux a b alo blo ahi bhi hb (ahi - alo) (by omega)).2

/-- The left extension loop preserves the region bound. -/
theorem extLeft_inRegion (a b : List Char) (alo blo ahi bhi : Nat) :
    ∀ (fuel : Nat) (m : DpBest), dpInRegion alo ahi blo bhi m →
      dpInRegion alo ahi blo bhi (extLeft a b alo blo fuel m) := by
  intro fuel
  induction fuel with
  | zero => intro m hm; exact hm
  | succ f ih =>
    intro m hm
    unfold extLeft
    split
    · next hcond =>
      obtain ⟨hc1, hc2, -⟩ := hcond
      refine ih _ ?_
      obtain ⟨h1, h2, h3, h4⟩ := hm
      unfold dpInRegion
      simp only
      omega
    · exact hm

/-- The right extension loop preserves the region bound. -/
theorem extRight_inRegion (a b : List Char) (alo blo ahi bhi : Nat) :
    ∀ (fuel : Nat) (m : DpBest), dpInRegion alo ahi blo bhi m →
      dpInRegion alo ahi blo bhi (extRight a b ahi bhi fuel m) := by
  intro fuel
  induction fuel with
  | zero => intro m hm; exact hm
  | succ f ih =>
    intro m hm
    unfold extRight
    split
    · next hcond =>
      obtain ⟨hc1, hc2, -⟩ := hcond
      refine ih _ ?_
      obtain ⟨h1, h2, h3, h4⟩ := hm
      unfold dpInRegion
      simp only
      omega
    · exact hm

/-- find_longest_match returns a block inside the scanned region. -/
theorem findLongestMatch_inRegion (a b : List Char) (alo ahi blo bhi : Nat)
    (ha : alo ≤ ahi) (hb : blo ≤ bhi) :
    dpInRegion alo ahi blo bhi (findLongestMatch a b alo ahi blo bhi) := by
  unfold findLongestMatch
  exact extRight_inRegion a b alo blo ahi bhi _ _
    (extLeft_inRegion a b alo blo ahi bhi _ _
      (dpLoop_inRegion a b alo blo ahi bhi ha hb))

/-- The total matched size over a region is at most either extent. -/
theorem mbSum_le (a b : List Char) :
    ∀ (fuel alo ahi blo bhi : Nat), alo ≤ ahi → blo ≤ bhi →
      mbSum a b fuel alo ahi blo bhi ≤ min (ahi - alo) (bhi - blo) := by
  intro fuel
  induction fuel with
  | zero =>
    intro alo ahi blo bhi _ _
    simp [mbSum]
  | succ f ih =>
    intro alo ahi blo bhi ha hb
    obtain ⟨h1, h2, h3, h4⟩ := findLongestMatch_inRegion a b alo ahi blo bhi ha hb
    unfold mbSum
    dsimp only
    split
    · omega
    · have hL := ih alo (findLongestMatch a b alo ahi blo bhi).besti
        blo (findLongestMatch a b alo ahi blo bhi).bestj h1 h3
      have hR := ih ((findLongestMatch a b alo ahi blo bhi).besti +
          (findLongestMatch a b alo ahi blo bhi).bestsize) ahi
        ((findLongestMatch a b alo ahi blo bhi).bestj +
          (findLongestMatch a b alo ahi blo bhi).bestsize) bhi h2 h4
      omega

/-- The matched total is at most the length of either string. -/
theorem matchTotal_le (a b : List Char) :
    matchTotal a b ≤ min a.length b.length := by
  unfold matchTotal
  simpa using mbSum_le a b (a.length + 1) 0 a.length 0 b.length
    (Nat.zero_le _) (Nat.zero_le _)

/-! ## The diagonal argument for self-similarity -/

theorem chainLen_zero_eq (a b : List Char) (alo blo bhi j : Nat) :
    chainLen a b alo blo bhi 0 j =
      if chainValid a b alo blo bhi 0 j then 1 else 0 := rfl

theorem chainLen_succ_eq (a b : List Char) (alo blo bhi i j : Nat) :
    chainLen a b alo blo bhi (i + 1) j =
      if chainValid a b alo blo bhi (i + 1) j then
        (if j = 0 then 0 else chainLen a b alo blo bhi i (j - 1)) + 1
      else 0 := rfl

theorem dpRowStep_snd (j2len : Nat → Nat) (i : Nat)
    (acc : (Nat → Nat) × DpBest) (j : Nat) :
    (dpRowStep j2len i acc j).2 =
      if acc.2.bestsize < (if j = 0 then 0 else j2len (j - 1)) + 1 then
        ⟨i + 1 - ((if j = 0 then 0 else j2len (j - 1)) + 1),
         j + 1 - ((if j = 0 then 0 else j2len (j - 1)) + 1),
         (if j = 0 then 0 else j2len (j - 1)) + 1⟩
      else acc.2 := rfl

/-- On a square region of a string against itself, a chain value below the
diagonal is dominated by the diagonal value of its column. -/
theorem chainLen_diag_dom_le (a : List Char) (alo bhi : Nat) :
    ∀ i j, j ≤ i →
      chainLen a a alo alo bhi i j ≤ chainLen a a alo alo bhi j j := by
  intro i
  induction i with
  | zero =>
    intro j hj
    obtain rfl : j = 0 := by omega
    exact Nat.le_refl _
  | succ i' ih =>
    intro j hj
    rcases Nat.eq_or_lt_of_le hj with rfl | hjlt
    · exact Nat.le_refl _
    · by_cases hv : chainValid a a alo alo bhi (i' + 1) j = true
      · obtain ⟨hv1, hv2, hv3, hv4, hv5, hv6⟩ :=
          (chainValid_iff a a alo alo bhi (i' + 1) j).mp hv
        have hvjj : chainValid a a alo alo bhi j j = true :=
          (chainValid_iff a a alo alo bhi j j).mpr
            ⟨hv2, hv2, hv3, hv4, rfl, hv6⟩
        rw [chainLen_succ_eq, if_pos hv]
        cases j with
        | zero =>
          rw [if_pos rfl, chainLen_zero_eq, if_pos hvjj]
        | succ j' =>
          rw [if_neg (by omega), chainLen_succ_eq, if_pos hvjj,
            if_neg (by omega)]
          have := ih j' (by omega)
          simpa using this
      · rw [chainLen_eq_zero_of_invalid a a alo alo bhi (i' + 1) j
          (by simpa using hv)]
        exact Nat.zero_le _

/-- On a square region of a string against itself, a chain value above the
diagonal is dominated by the diagonal value of its row. -/
theorem chainLen_diag_dom_ge (a : List Char) (alo bhi : Nat) :
    ∀ i j, i ≤ j →
      chainLen a a alo alo bhi i j ≤ chainLen a a alo alo bhi i i := by
  intro i
  induction i with
  | zero =>
    intro j hj
    by_cases hv : chainValid a a alo alo bhi 0 j = true
    · obtain ⟨hv1, hv2, hv3, hv4, hv5, hv6⟩ :=
        (chainValid_iff a a alo alo bhi 0 j).mp hv
      have hvii : chainValid a a alo alo bhi 0 0 = true :=
        (chainValid_iff a a alo alo bhi 0 0).mpr
          ⟨hv1, hv1, by omega, by omega, rfl, by rwa [← hv5] at hv6⟩
      rw [chainLen_zero_eq a a alo alo bhi j, if_pos hv,
        chainLen_zero_eq a a alo alo bhi 0, if_pos hvii]
    · rw [chainLen_eq_zero_of_invalid a a alo alo bhi 0 j (by simpa using hv)]
      exact Nat.zero_le _
  | succ i' ih =>
    intro j hj
    by_cases hv : chainValid a a alo alo bhi (i' + 1) j = true
    · obtain ⟨hv1, hv2, hv3, hv4, hv5, hv6⟩ :=
        (chainValid_iff a a alo alo bhi (i' + 1) j).mp hv
      have hvii : chainValid a a alo alo bhi (i' + 1) (i' + 1) = true :=
        (chainValid_iff a a alo alo bhi (i' + 1) (i' + 1)).mpr
          ⟨hv1, hv1, by omega, by omega, rfl, by rwa [← hv5] at hv6⟩
      rw [chainLen_succ_eq a a alo alo bhi i' j, if_pos hv,
        chainLen_succ_eq a a alo alo bhi i' (i' + 1), if_pos hvii,
        if_neg (show ¬(j = 0) from by omega),
        if_neg (show ¬(i' + 1 = 0) from by omega)]
      have := ih (j - 1) (by omega)
      simpa using this
    · rw [chainLen_eq_zero_of_invalid a a alo alo bhi (i' + 1) j
        (by simpa using hv)]
      exact Nat.zero_le _

/-- The inner fold keeps the best block on the diagonal when scanning a
string against itself: by the time an off-diagonal cell could win, the
diagonal cell of its row or column has already set an equal or larger
best. -/
theorem foldl_dpRowStep_diag (a : List Char) (alo bhi i : Nat)
    (j2len : Nat → Nat) :
    ∀ js : List Nat, js.Pairwise (· < ·) →
      (∀ j ∈ js, chainValid a a alo alo bhi i j = true) →
      (∀ j ∈ js, (if j = 0 then 0 else j2len (j - 1)) + 1 =
        chainLen a a alo alo bhi i j) →
      ∀ acc : (Nat → Nat) × DpBest,
        acc.2.besti = acc.2.bestj →
        (∀ m, alo ≤ m → m < i →
          chainLen a a alo alo bhi m m ≤ acc.2.bestsize) →
        (isPopular a (chAt a i) = false →
          (i ∈ js ∨ chainLen a a alo alo bhi i i ≤ acc.2.bestsize)) →
        (js.foldl (dpRowStep j2len i) acc).2.besti =
          (js.foldl (dpRowStep j2len i) acc).2.bestj ∧
        (∀ m, alo ≤ m → m < i →
          chainLen a a alo alo bhi m m ≤
            (js.foldl (dpRowStep j2len i) acc).2.bestsize) ∧
        (isPopular a (chAt a i) = false →
          chainLen a a alo alo bhi i i ≤
            (js.foldl (dpRowStep j2len i) acc).2.bestsize) := by
  intro js
  induction js with
  | nil =>
    intro _ _ _ acc hdiag hcov hi
    refine ⟨hdiag, hcov, ?_⟩
    intro hpop
    rcases hi hpop with h | h
    · simp at h
    · exact h
  | cons j js' ih =>
    intro hpw hvalid hval acc hdiag hcov hi
    rw [List.foldl_cons]
    have hvj := hvalid j (List.mem_cons_self j js')
    obtain ⟨hv1, hv2, hv3, hv4, hv5, hv6⟩ :=
      (chainValid_iff a a alo alo bhi i j).mp hvj
    have hkj := hval j (List.mem_cons_self j js')
    have hpw' := (List.pairwise_cons.mp hpw).2
    have hgt := (List.pairwise_cons.mp hpw).1
    refine ih hpw' (fun x hx => hvalid x (List.mem_cons_of_mem j hx))
      (fun x hx => hval x (List.mem_cons_of_mem j hx)) _ ?_ ?_ ?_
    · -- diagonality of the updated accumulator
      rw [dpRowStep_snd]
      by_cases hlt :
          acc.2.bestsize < (if j = 0 then 0 else j2len (j - 1)) + 1
      · rw [if_pos hlt]
        have hji : j = i := by
          rcases Nat.lt_trichotomy j i with hlt2 | heq | hgt2
          · have hcl := chainLen_diag_dom_le a alo bhi i j (by omega)
            have := hcov j hv2 hlt2
            omega
          · exact heq
          · have hpop : isPopular a (chAt a i) = false := by
              rw [hv5]
              exact hv6
            rcases hi hpop with hmem | hle
            · rcases List.mem_cons.mp hmem with heq' | hmem'
              · omega
              · have := hgt i hmem'
                omega
            · have := chainLen_diag_dom_ge a alo bhi i j (by omega)
              omega
        subst hji
        rfl
      · rw [if_neg hlt]
        exact hdiag
    · -- coverage of earlier diagonal cells
      intro m hm1 hm2
      rw [dpRowStep_snd]
      by_cases hlt :
          acc.2.bestsize < (if j = 0 then 0 else j2len (j - 1)) + 1
      · rw [if_pos hlt]
        show chainLen a a alo alo bhi m m ≤
          (if j = 0 then 0 else j2len (j - 1)) + 1
        have := hcov m hm1 hm2
        omega
      · rw [if_neg hlt]
        exact hcov m hm1 hm2
    · -- the current diagonal cell
      intro hpop
      rcases hi hpop with hmem | hle
      · rcases List.mem_cons.mp hmem with heq' | hmem'
        · subst heq'
          right
          rw [dpRowStep_snd]
          by_cases hlt :
              acc.2.bestsize < (if i = 0 then 0 else j2len (i - 1)) + 1
          · rw [if_pos hlt]
            show chainLen a a alo alo bhi i i ≤
              (if i = 0 then 0 else j2len (i - 1)) + 1
            omega
          · rw [if_neg hlt]
            omega
        · exact Or.inl hmem'
      · right
        rw [dpRowStep_snd]
        by_cases hlt :
            acc.2.bestsize < (if j = 0 then 0 else j2len (j - 1)) + 1
        · rw [if_pos hlt]
          show chainLen a a alo alo bhi i i ≤
            (if j = 0 then 0 else j2len (j - 1)) + 1
          omega
        · rw [if_neg hlt]
          exact hle

/-- The outer dp loop on a string against itself keeps the best block on
the diagonal and dominates every diagonal chain value in the scanned rows. -/
theorem dpLoopAux_diag (a : List Char) (alo ahi : Nat)
    (hlen : ahi ≤ a.length) :
    ∀ n, alo + n ≤ ahi →
      ((List.range' alo n).foldl (dpRow a a alo ahi)
        (fun _ => 0, ⟨alo, alo, 0⟩)).2.besti =
      ((List.range' alo n).foldl (dpRow a a alo ahi)
        (fun _ => 0, ⟨alo, alo, 0⟩)).2.bestj ∧
      (∀ m, alo ≤ m → m < alo + n →
        chainLen a a alo alo ahi m m ≤
          ((List.range' alo n).foldl (dpRow a a alo ahi)
            (fun _ => 0, ⟨alo, alo, 0⟩)).2.bestsize) := by
  intro n
  induction n with
  | zero =>
    intro _
    exact ⟨rfl, fun m hm1 hm2 => (by omega : False).elim⟩
  | succ n' ih =>
    intro hle
    have hle' : alo + n' ≤ ahi := by omega
    obtain ⟨ihdiag, ihcov⟩ := ih hle'
    have hfst := (dpLoopAux a a alo alo ahi ahi (by omega) n' hle').1
    rw [range'_concat_one, List.foldl_append, List.foldl_cons, List.foldl_nil]
    set st := (List.range' alo n').foldl (dpRow a a alo ahi)
      (fun _ => 0, ⟨alo, alo, 0⟩) with hstdef
    show (dpRow a a alo ahi st (alo + n')).2.besti =
        (dpRow a a alo ahi st (alo + n')).2.bestj ∧ _
    unfold dpRow
    have hmemiff := fun j => mem_rowJs_iff_chainValid a a alo alo ahi
      (alo + n') j (by omega)
    have hvalid : ∀ j ∈ rowJs a (chAt a (alo + n')) alo ahi,
        chainValid a a alo alo ahi (alo + n') j = true :=
      fun j hj => (hmemiff j).mp hj
    have hval : ∀ j ∈ rowJs a (chAt a (alo + n')) alo ahi,
        (if j = 0 then 0 else st.1 (j - 1)) + 1 =
          chainLen a a alo alo ahi (alo + n') j :=
      fun j hj => rowval_eq_chainLen a a alo alo ahi n' st.1 hfst j
        (hvalid j hj)
    obtain ⟨hd, hc, ht⟩ := foldl_dpRowStep_diag a alo ahi (alo + n') st.1
      (rowJs a (chAt a (alo + n')) alo ahi)
      (pairwise_lt_rowJs a (chAt a (alo + n')) alo ahi)
      hvalid hval (fun _ => 0, st.2) ihdiag ihcov
      (fun hpop => Or.inl ((hmemiff (alo + n')).mpr
        ((chainValid_iff a a alo alo ahi (alo + n') (alo + n')).mpr
          ⟨by omega, by omega, by omega, by omega, rfl, hpop⟩)))
    refine ⟨hd, ?_⟩
    intro m hm1 hm2
    rcases Nat.lt_or_ge m (alo + n') with hm | hm
    · exact hc m hm1 hm
    · have hmeq : m = alo + n' := by omega
      subst hmeq
      by_cases hpop : isPopular a (chAt a (alo + n')) = false
      · exact ht hpop
      · have hnv : chainValid a a alo alo ahi (alo + n') (alo + n') = false := by
          by_contra hnv
          obtain ⟨-, -, -, -, -, h6⟩ :=
            (chainValid_iff a a alo alo ahi (alo + n') (alo + n')).mp
              (by simpa using hnv)
          exact hpop h6
        rw [chainLen_eq_zero_of_invalid a a alo alo ahi (alo + n') (alo + n') hnv]
        exact Nat.zero_le _

/-- The dp phase of find_longest_match on a string against itself returns a
diagonal best block dominating every diagonal chain value. -/
theorem dpLoop_diag (a : List Char) (alo ahi : Nat) (ha : alo ≤ ahi)
    (hlen : ahi ≤ a.length) :
    (dpLoop a a alo ahi alo ahi).besti = (dpLoop a a alo ahi alo ahi).bestj ∧
    (∀ m, alo ≤ m → m < ahi →
      chainLen a a alo alo ahi m m ≤ (dpLoop a a alo ahi alo ahi).bestsize) := by
  have h := dpLoopAux_diag a alo ahi hlen (ahi - alo) (by omega)
  exact ⟨h.1, fun m hm1 hm2 => h.2 m hm1 (by omega)⟩

/-- Extending a diagonal block leftwards on a string against itself runs all
the way to the left edge of the window. -/
theorem extLeft_diag (a : List Char) (alo : Nat) :
    ∀ (fuel : Nat) (m : DpBest), m.besti = m.bestj → alo ≤ m.besti →
      m.besti - alo ≤ fuel →
      extLeft a a alo alo fuel m = ⟨alo, alo, m.bestsize + (m.besti - alo)⟩ := by
  intro fuel
  induction fuel with
  | zero =>
    intro m hdiag hge hfuel
    obtain ⟨mi, mj, ms⟩ := m
    simp only at hdiag hge hfuel
    show (⟨mi, mj, ms⟩ : DpBest) = ⟨alo, alo, ms + (mi - alo)⟩
    congr 1 <;> omega
  | succ f ihf =>
    intro m hdiag hge hfuel
    show (if alo < m.besti ∧ alo < m.bestj ∧
        chAt a (m.besti - 1) = chAt a (m.bestj - 1) then
      extLeft a a alo alo f ⟨m.besti - 1, m.bestj - 1, m.bestsize + 1⟩
      else m) = _
    by_cases hlt : alo < m.besti
    · rw [if_pos ⟨hlt, by omega, by rw [hdiag]⟩]
      rw [ihf ⟨m.besti - 1, m.bestj - 1, m.bestsize + 1⟩
        (show m.besti - 1 = m.bestj - 1 from by omega)
        (show alo ≤ m.besti - 1 from by omega)
        (show m.besti - 1 - alo ≤ f from by omega)]
      show (⟨alo, alo, m.bestsize + 1 + (m.besti - 1 - alo)⟩ : DpBest) = _
      have : m.bestsize + 1 + (m.besti - 1 - alo) =
          m.bestsize + (m.besti - alo) := by omega
      rw [this]
    · have hi : m.besti = alo := by omega
      rw [if_neg (by intro hc; exact hlt hc.1)]
      obtain ⟨mi, mj, ms⟩ := m
      simp only at hdiag hi
      show (⟨mi, mj, ms⟩ : DpBest) = ⟨alo, alo, ms + (mi - alo)⟩
      congr 1 <;> omega

/-- Extending a block anchored at the origin rightwards on a string against
itself runs all the way to the right edge of the window. -/
theorem extRight_diag (a : List Char) (ahi : Nat) :
    ∀ (fuel : Nat) (m : DpBest), m.besti = 0 → m.bestj = 0 →
      m.bestsize ≤ ahi → ahi - m.bestsize ≤ fuel →
      extRight a a ahi ahi fuel m = ⟨0, 0, ahi⟩ := by
  intro fuel
  induction fuel with
  | zero =>
    intro m hi hj hle hfuel
    obtain ⟨mi, mj, ms⟩ := m
    simp only at hi hj hle hfuel
    show (⟨mi, mj, ms⟩ : DpBest) = ⟨0, 0, ahi⟩
    congr 1 <;> omega
  | succ f ihf =>
    intro m hi hj hle hfuel
    show (if m.besti + m.bestsize < ahi ∧ m.bestj + m.bestsize < ahi ∧
        chAt a (m.besti + m.bestsize) = chAt a (m.bestj + m.bestsize) then
      extRight a a ahi ahi f ⟨m.besti, m.bestj, m.bestsize + 1⟩
      else m) = _
    by_cases hlt : m.bestsize < ahi
    · rw [if_pos ⟨by omega, by omega, by rw [hi, hj]⟩]
      exact ihf ⟨m.besti, m.bestj, m.bestsize + 1⟩ hi hj
        (show m.bestsize + 1 ≤ ahi from by omega)
        (show ahi - (m.bestsize + 1) ≤ f from by omega)
    · have hs : m.bestsize = ahi := by omega
      rw [if_neg (by intro hc; omega)]
      obtain ⟨mi, mj, ms⟩ := m
      simp only at hi hj hs
      show (⟨mi, mj, ms⟩ : DpBest) = ⟨0, 0, ahi⟩
      congr 1 <;> omega

theorem extLeft_stop (a b : List Char) (alo blo fuel : Nat) (m : DpBest)
    (h : m.besti = alo) :
    extLeft a b alo blo fuel m = m := by
  cases fuel with
  | zero => rfl
  | succ f =>
    show (if alo < m.besti ∧ blo < m.bestj ∧
        chAt a (m.besti - 1) = chAt b (m.bestj - 1) then
      extLeft a b alo blo f ⟨m.besti - 1, m.bestj - 1, m.bestsize + 1⟩
      else m) = m
    rw [if_neg (fun hc => absurd hc.1 (by omega))]

theorem extRight_stop (a b : List Char) (ahi bhi fuel : Nat) (m : DpBest)
    (h : ahi ≤ m.besti + m.bestsize) :
    extRight a b ahi bhi fuel m = m := by
  cases fuel with
  | zero => rfl
  | succ f =>
    show (if m.besti + m.bestsize < ahi ∧ m.bestj + m.bestsize < bhi ∧
        chAt a (m.besti + m.bestsize) = chAt b (m.bestj + m.bestsize) then
      extRight a b ahi bhi f ⟨m.besti, m.bestj, m.bestsize + 1⟩
      else m) = m
    rw [if_neg (fun hc => absurd hc.1 (by omega))]

/-- On an empty a-window find_longest_match returns the trivial block at
the window corner. -/
theorem flm_degenerate (a b : List Char) (x y z : Nat) :
    findLongestMatch a b x x y z = ⟨x, y, 0⟩ := by
  have hdp : dpLoop a b x x y z = ⟨x, y, 0⟩ := by
    unfold dpLoop
    rw [Nat.sub_self]
    rfl
  unfold findLongestMatch
  rw [hdp, extLeft_stop a b x y (x + z + 1) ⟨x, y, 0⟩ rfl,
    extRight_stop a b x z (x + z + 1) ⟨x, y, 0⟩
      (show x ≤ x + 0 from by omega)]

/-- get_matching_blocks contributes nothing on an empty a-window. -/
theorem mbSum_degenerate (a b : List Char) (fuel x y z : Nat) :
    mbSum a b fuel x x y z = 0 := by
  cases fuel with
  | zero => rfl
  | succ f =>
    unfold mbSum
    dsimp only
    rw [flm_degenerate]
    rw [if_pos (show (0 : Nat) = 0 from rfl)]

/-- On a string against itself, find_longest_match over the full windows
returns the whole string as the longest block. -/
theorem findLongestMatch_self (a : List Char) :
    findLongestMatch a a 0 a.length 0 a.length = ⟨0, 0, a.length⟩ := by
  have hreg := dpLoop_inRegion a a 0 0 a.length a.length (Nat.zero_le _)
    (Nat.zero_le _)
  unfold dpInRegion at hreg
  obtain ⟨hr1, hr2, hr3, hr4⟩ := hreg
  have hdiag := (dpLoop_diag a 0 a.length (Nat.zero_le _) (le_refl _)).1
  unfold findLongestMatch
  rw [extLeft_diag a 0 (a.length + a.length + 1)
    (dpLoop a a 0 a.length 0 a.length) hdiag (Nat.zero_le _) (by omega)]
  rw [extRight_diag a a.length (a.length + a.length + 1)
    ⟨0, 0, (dpLoop a a 0 a.length 0 a.length).bestsize +
      ((dpLoop a a 0 a.length 0 a.length).besti - 0)⟩ rfl rfl
    (show (dpLoop a a 0 a.length 0 a.length).bestsize +
      ((dpLoop a a 0 a.length 0 a.length).besti - 0) ≤ a.length from by omega)
    (show a.length - ((dpLoop a a 0 a.length 0 a.length).bestsize +
      ((dpLoop a a 0 a.length 0 a.length).besti - 0)) ≤
        a.length + a.length + 1 from by omega)]

/-- The total matched length of a string against itself is its length. -/
theorem matchTotal_self (a : List Char) : matchTotal a a = a.length := by
  unfold matchTotal mbSum
  dsimp only
  rw [findLongestMatch_self]
  by_cases h : a.length = 0
  · rw [if_pos (show a.length = 0 from h)]
    omega
  · rw [if_neg (show ¬(a.length = 0) from h)]
    show a.length + mbSum a a a.length 0 0 0 0 +
      mbSum a a a.length (0 + a.length) a.length (0 + a.length) a.length =
        a.length
    rw [Nat.zero_add, mbSum_degenerate, mbSum_degenerate]
    omega

/-- The scorer on a string against itself: both windows are the whole
string, the longest block is the whole string, and the ratio is 2n/2n. -/
theorem calculate_similarity_self (a : List Char) (h : a ≠ []) :
    calculate_similarity a a = 1 := by
  unfold calculate_similarity
  rw [if_neg (by simp [List.isEmpty_iff, h])]
  unfold smRatio
  rw [matchTotal_self]
  have hl0 : a.length ≠ 0 := by simpa [List.length_eq_zero] using h
  have hl : (a.length : ℚ) ≠ 0 := by exact_mod_cast hl0
  field_simp
  ring

/-- The scorer always lands in [0, 1]: the matched total is at most the
shorter length, so twice it is at most the summed lengths. -/
theorem calculate_similarity_bounds (a b : List Char) :
    0 ≤ calculate_similarity a b ∧ calculate_similarity a b ≤ 1 := by
  unfold calculate_similarity
  by_cases h : a.isEmpty = true ∨ b.isEmpty = true
  · rw [if_pos h]
    norm_num
  · rw [if_neg h]
    unfold smRatio
    simp only [List.isEmpty_iff, not_or] at h
    obtain ⟨ha, hb⟩ := h
    have ha' : 0 < a.length := List.length_pos.mpr ha
    have hb' : 0 < b.length := List.length_pos.mpr hb
    have hM := matchTotal_le a b
    have h2 : 2 * matchTotal a b ≤ a.length + b.length := by omega
    have hden : (0 : ℚ) < (a.length : ℚ) + (b.length : ℚ) := by
      have : (0 : ℚ) < (a.length : ℚ) := by exact_mod_cast ha'
      have : (0 : ℚ) ≤ (b.length : ℚ) := by positivity
      linarith
    constructor
    · apply div_nonneg
      · positivity
      · linarith
    · rw [div_le_one hden]
      have : ((2 * matchTotal a b : Nat) : ℚ) ≤
          ((a.length + b.length : Nat) : ℚ) := by exact_mod_cast h2
      push_cast at this
      linarith

theorem calculate_similarity_empty (a b : List Char)
    (h : a.isEmpty = true ∨ b.isEmpty = true) :
    calculate_similarity a b = 0 := by
  unfold calculate_similarity
  rw [if_pos h]

/-- C6 (corrected): the similarity scorer satisfies the bounds clause, the
empty-input clause, and the self-similarity clause of the claim: for all
strings a and b, 0 ≤ similarity(a,b) ≤ 1, similarity is 0 when either
input is empty, and similarity(a,a) = 1 for non-empty a.  The symmetry
clause of the claim is false (see the counterexample). -/
theorem similarity_bounds_self_empty (a b : List Char) :
    0 ≤ calculate_similarity a b ∧ calculate_similarity a b ≤ 1 ∧
    calculate_similarity [] b = 0 ∧ calculate_similarity b [] = 0 ∧
    (a ≠ [] → calculate_similarity a a = 1) := by
  obtain ⟨h1, h2⟩ := calculate_similarity_bounds a b
  exact ⟨h1, h2,
    calculate_similarity_empty [] b (Or.inl rfl),
    calculate_similarity_empty b [] (Or.inr rfl),
    fun ha => calculate_similarity_self a ha⟩

theorem similarity_bounds_self_empty_witness :
    0 ≤ calculate_similarity "ab".toList "cd".toList ∧
    calculate_similarity "ab".toList "cd".toList ≤ 1 ∧
    calculate_similarity [] "cd".toList = 0 ∧
    calculate_similarity "cd".toList [] = 0 ∧
    calculate_similarity "ab".toList "ab".toList = 1 := by
  obtain ⟨h1, h2, h3, h4, h5⟩ :=
    similarity_bounds_self_empty "ab".toList "cd".toList
  exact ⟨h1, h2, h3, h4, h5 (by decide)⟩

/-- C6 counterexample: the similarity scorer is not symmetric.  With
a = "aaxzbb" and b = "bbcaadz" the matched total is 3 one way (blocks
"aa" and "b") but only 2 the other way, giving ratios 6/13 and 4/13. -/
theorem similarity_not_symmetric_cx :
    calculate_similarity "aaxzbb".toList "bbcaadz".toList ≠
      calculate_similarity "bbcaadz".toList "aaxzbb".toList := by
  unfold calculate_similarity
  rw [if_neg (by decide), if_neg (by decide)]
  unfold smRatio
  rw [show matchTotal "aaxzbb".toList "bbcaadz".toList = 3 from by decide,
    show matchTotal "bbcaadz".toList "aaxzbb".toList = 2 from by decide,
    show ("aaxzbb".toList.length) = 6 from rfl,
    show ("bbcaadz".toList.length) = 7 from rfl]
  norm_num

end BooksCurator
